/-
  Verification development for the UnconfinedCompression repository
  (`ucompress`): a finite-difference poroelasticity solver for
  force-controlled unconfined compression and free-swelling hydration of
  fibre-reinforced hydrogel samples.

  Shallow embedding notes.

  * Numeric fields are modelled over an arbitrary `Field K` (instantiated
    at `ℚ` for executable witnesses and at `ℝ` for calculus statements).
  * The spatial grid `r`, differentiation matrix `D`, quadrature weights
    `w`, time step `dt`, the linear kinematic maps `lam_r_u`, `lam_t_u`
    and the index layout live in the external `Experiment` base class
    (`experiment.py`, not part of the sources being verified); they are
    modelled from the spec as fields of a context structure `Ctx`.
  * The constitutive model in the sources is `FibreReinforcedNH`
    (`fibre_reinforced_nh.py`).  Its strain energy
    `W = (1-alpha) * W_nH + alpha * W_f` has `dW/dlam_r` and `dW/dlam_t`
    independent of `lam_z`, and `dW/dlam_z` independent of `lam_r, lam_t`
    (the neo-Hookean part separates and the fibre part has no `lam_z`).
    Accordingly the stress closures are embedded as abstract functions
    `Sr St : K → K → K` of `(lam_r_i, lam_t_i)` and `Sz : K → K` of
    `lam_z`, applied elementwise, together with abstract derivative
    closures; this matches the zero slots of the overridden
    `eval_stress_derivatives`.
  * NumPy value shapes (scalar versus 1-d array versus 2-d array) are
    modelled explicitly where a claim is about shapes (`NpVal`, `Np2`).
-/
import Mathlib

namespace UComp

/-- Model of a NumPy value that is either a scalar (0-dimensional) or a
1-dimensional array.  Used where shape behaviour matters. -/
inductive NpVal (K : Type) where
  | scalar : K → NpVal K
  | arr : List K → NpVal K
deriving DecidableEq, Repr

/-- Model of the Python builtin `len` on a NumPy value: defined on arrays,
raises `TypeError` on scalars (floats have no `len`). -/
def NpVal.len {K : Type} : NpVal K → Except String Nat
  | NpVal.scalar _ => Except.error ("TypeError: object of type numpy.float64 has no len()")
  | NpVal.arr xs => Except.ok xs.length

/-- Model of `numpy.zeros(n)`: a 1-d array of `n` zeros. -/
def npZeros (K : Type) [Zero K] (n : Nat) : NpVal K :=
  NpVal.arr (List.replicate n 0)

/-- `NoOsmosis.eval_osmotic_pressure` from `no_osmosis.py`:
`return zeros(len(J))`.  The `len` call fails on scalar input. -/
def NoOsmosis.eval_osmotic_pressure {K : Type} [Zero K] (J : NpVal K) :
    Except String (NpVal K) := do
  let n ← J.len
  pure (npZeros K n)

/-- Scalar times NumPy value, elementwise (NumPy broadcasting). -/
def NpVal.smul {K : Type} [Mul K] (c : K) : NpVal K → NpVal K
  | NpVal.scalar x => NpVal.scalar (c * x)
  | NpVal.arr xs => NpVal.arr (xs.map (fun x => c * x))

/-- Scalar minus NumPy value, elementwise (NumPy broadcasting). -/
def NpVal.rsub {K : Type} [Sub K] (c : K) : NpVal K → NpVal K
  | NpVal.scalar x => NpVal.scalar (c - x)
  | NpVal.arr xs => NpVal.arr (xs.map (fun x => c - x))

/-- Model of a NumPy value that is either a 1-d array (vector) or a 2-d
array (matrix), for the stress-derivative shape claims. -/
inductive Np2 (K : Type) where
  | vec : List K → Np2 K
  | mat : List (List K) → Np2 K
deriving DecidableEq, Repr

/-- `numpy.diag` of a vector: the square diagonal matrix. -/
def npDiag {K : Type} [Zero K] (xs : List K) : Np2 K :=
  Np2.mat ((List.finRange xs.length).map fun i =>
    (List.finRange xs.length).map fun j =>
      if i = j then xs.get i else 0)

/-- A length-`n` zero vector as an `Np2` value (`numpy.zeros(N)`). -/
def np2Zeros (K : Type) [Zero K] (n : Nat) : Np2 K :=
  Np2.vec (List.replicate n 0)

/-- `FibreReinforcedNH.eval_stress_derivatives` from
`fibre_reinforced_nh.py`: given the elementwise second-derivative
closures, returns the nine outputs
`(diag(S_r_r), diag(S_r_t), zeros(N), diag(S_t_r), diag(S_t_t), zeros(N),
zeros(N), zeros(N), S_z_z)` where `N = len(lam_r)`.  The `S_z_z` closure
is a function of `lam_z` broadcast over the grid (modelled from the spec:
shape `(N,)` broadcastable). -/
def FibreReinforcedNH.eval_stress_derivatives {K : Type} [Zero K]
    (S_r_r S_r_t S_t_r S_t_t : K → K → K) (S_z_z : K → K)
    (lam_r lam_t : List K) (lam_z : K) :
    Np2 K × Np2 K × Np2 K × Np2 K × Np2 K × Np2 K × Np2 K × Np2 K × Np2 K :=
  let N := lam_r.length
  (npDiag (List.zipWith S_r_r lam_r lam_t),
   npDiag (List.zipWith S_r_t lam_r lam_t),
   np2Zeros K N,
   npDiag (List.zipWith S_t_r lam_r lam_t),
   npDiag (List.zipWith S_t_t lam_r lam_t),
   np2Zeros K N,
   np2Zeros K N,
   np2Zeros K N,
   Np2.vec (List.replicate N (S_z_z lam_z)))

/-- Matrix product of two square matrices indexed by `Fin N`. -/
def matMul {N : ℕ} {K : Type} [Field K] (A B : Fin N → Fin N → K) :
    Fin N → Fin N → K :=
  fun i j => ∑ m, A i m * B m j

/-- `numpy.diag` of a vector as a `Fin N`-indexed square matrix. -/
def diagM {N : ℕ} {K : Type} [Field K] (v : Fin N → K) :
    Fin N → Fin N → K :=
  fun i j => if i = j then v i else 0

/-- Context of a `ForceControlled` experiment: the grid-and-operator data
owned by the external `Experiment` base class, the configuration values
`pars.physical`, and the compiled constitutive/permeability closures.
Modelled from the spec where the owning code (`experiment.py`,
`parameters`, `base_mechanics.py`) is outside the verified sources. -/
structure Ctx (N : ℕ) (K : Type) where
  /-- radial grid, `r[0] = 0`, `r[-1] = 1` -/
  r : Fin N → K
  /-- finite-difference differentiation matrix -/
  D : Fin N → Fin N → K
  /-- quadrature weights -/
  w : Fin N → K
  /-- current time-step size -/
  dt : K
  /-- applied axial force target, `pars.physical["F"]` -/
  Fphys : K
  /-- initial axial-stretch guess, `pars.physical["lam_z"]` -/
  lam_z_phys : K
  /-- the constant `numpy.pi` -/
  piv : K
  /-- `numpy.sqrt` -/
  sqrtv : K → K
  /-- `numpy.exp` -/
  expv : K → K
  /-- radial stress closure `S_r(lam_r, lam_t)` (elementwise) -/
  Sr : K → K → K
  /-- circumferential stress closure `S_t(lam_r, lam_t)` (elementwise) -/
  St : K → K → K
  /-- axial stress closure `S_z(lam_z)` -/
  Sz : K → K
  /-- stress-derivative closures of the mechanics model -/
  Sr_r : K → K → K
  Sr_t : K → K → K
  St_r : K → K → K
  St_t : K → K → K
  Sz_z : K → K
  /-- permeability closure `k(J)` -/
  kf : K → K
  /-- permeability derivative closure `dk/dJ` -/
  kJ : K → K
  /-- linear map from displacement to radial stretch (`lam_r_u`) -/
  lam_r_u : Fin N → Fin N → K
  /-- linear map from displacement to circumferential stretch (`lam_t_u`) -/
  lam_t_u : Fin N → Fin N → K
  /-- affine offset of the radial stretch map -/
  lam_r0 : Fin N → K
  /-- affine offset of the circumferential stretch map -/
  lam_t0 : Fin N → K
  /-- time points of the simulation (owned by the `Solution`) -/
  tpoints : List K
  /-- fluid-load-fraction computation of the external base class -/
  computeFLF : NpVal K → K → K

/-- Modelled from the spec: the radial stretch as an affine function of
the displacement field, with linear part `lam_r_u` (supplied by the
external `Experiment` base context). -/
def lam_r_of {N : ℕ} {K : Type} [Field K] (ctx : Ctx N K) (u : Fin N → K) :
    Fin N → K :=
  fun i => ctx.lam_r0 i + ∑ m, ctx.lam_r_u i m * u m

/-- Modelled from the spec: the circumferential stretch as an affine
function of the displacement field, with linear part `lam_t_u`. -/
def lam_t_of {N : ℕ} {K : Type} [Field K] (ctx : Ctx N K) (u : Fin N → K) :
    Fin N → K :=
  fun i => ctx.lam_t0 i + ∑ m, ctx.lam_t_u i m * u m

/-- The volumetric Jacobian `J = lam_r * lam_t * lam_z` at a consistent
state. -/
def J_of {N : ℕ} {K : Type} [Field K] (ctx : Ctx N K) (u : Fin N → K)
    (lam_z : K) : Fin N → K :=
  fun i => lam_r_of ctx u i * lam_t_of ctx u i * lam_z

/-- Mutable state of a `ForceControlled` experiment instance: the current
fields, the previous-step stretches, the caches written by
`build_residual` (`div_S`, `dLdt`, residual blocks) and the Jacobian
blocks.  `J`, `J_u` and `J_l` are attributes maintained by the external
base class. -/
structure FCState (N : ℕ) (K : Type) where
  u : Fin N → K
  p : Fin N → K
  lam_z : K
  lam_r : Fin N → K
  lam_t : Fin N → K
  J : Fin N → K
  J_u : Fin N → Fin N → K
  J_l : Fin N → K
  lam_t_old : Fin N → K
  lam_z_old : K
  div_S : Fin N → K
  dLdt : Fin N → K
  F_u : Fin N → K
  F_p : Fin N → K
  F_l : K
  J_uu : Fin N → Fin N → K
  J_up : Fin N → Fin N → K
  J_ul : Fin N → K
  J_pu : Fin N → Fin N → K
  J_pp : Fin N → Fin N → K
  J_pl : Fin N → K
  J_lu : Fin N → K
  J_lp : Fin N → K
  J_ll : K

/-- `ForceControlled.build_residual`: evaluates stresses and permeability
at the current state, assembles the displacement residual `F_u` (interior
equation plus the boundary conditions `F_u[0] = u[0]`,
`F_u[-1] = S_r[-1]`, the last write winning), the pressure residual `F_p`
(interior rows plus `F_p[-1] = p[-1]`) and the scalar force balance
`F_l`, caching `div_S` and `dLdt` on the instance. -/
def build_residual {N : ℕ} {K : Type} [Field K] (ctx : Ctx N K)
    (s : FCState N K) : FCState N K :=
  let Srv : Fin N → K := fun i => ctx.Sr (s.lam_r i) (s.lam_t i)
  let Stv : Fin N → K := fun i => ctx.St (s.lam_r i) (s.lam_t i)
  let Szv : K := ctx.Sz s.lam_z
  let k : Fin N → K := fun i => ctx.kf (s.J i)
  let div_S : Fin N → K := fun i =>
    (∑ m, ctx.D i m * Srv m) + (Srv i - Stv i) / ctx.r i
  let dLdt : Fin N → K := fun i =>
    1 / ctx.dt * ((s.lam_t i) ^ 2 * s.lam_z - (s.lam_t_old i) ^ 2 * s.lam_z_old)
  { s with
    div_S := div_S
    dLdt := dLdt
    F_u := fun i =>
      if i.val = N - 1 then Srv i
      else if i.val = 0 then s.u i
      else ctx.r i / 2 * dLdt i - k i / s.lam_r i * div_S i
    F_p := fun i =>
      if i.val = N - 1 then s.p i
      else (∑ m, ctx.D i m * s.p m)
        - ctx.r i * (s.lam_r i) ^ 2 / 2 / k i / s.J i * dLdt i
    F_l := 2 * ctx.piv *
        (∑ i, ctx.w i * (Szv - s.lam_r i * s.lam_t i * s.p i) * ctx.r i)
      - ctx.Fphys }

/-- `ForceControlled.build_jacobian`: assembles the Jacobian blocks from
the stress-derivative closures (the fibre-reinforced model returns
`diag(S_r_r), diag(S_r_t), 0, diag(S_t_r), diag(S_t_t), 0, 0, 0, S_z_z`),
the permeability and its derivative, and the caches `div_S`, `dLdt`
written by the preceding `build_residual` call.  Interior rows are
assigned, the boundary rows of `J_uu`/`J_ul` are overwritten with the
derivatives of the boundary residuals, and the untouched rows
(`J_uu[0]`, `J_pu[-1]`, `J_pl[-1]`) keep their preallocated values. -/
def build_jacobian {N : ℕ} {K : Type} [Field K] (ctx : Ctx N K)
    (s : FCState N K) : FCState N K :=
  let Srr := diagM (fun i => ctx.Sr_r (s.lam_r i) (s.lam_t i))
  let Srt := diagM (fun i => ctx.Sr_t (s.lam_r i) (s.lam_t i))
  let Str := diagM (fun i => ctx.St_r (s.lam_r i) (s.lam_t i))
  let Stt := diagM (fun i => ctx.St_t (s.lam_r i) (s.lam_t i))
  let Srz : Fin N → K := fun _ => 0
  let Stz : Fin N → K := fun _ => 0
  let Szz : Fin N → K := fun _ => ctx.Sz_z s.lam_z
  let k : Fin N → K := fun i => ctx.kf (s.J i)
  let k_J : Fin N → K := fun i => ctx.kJ (s.J i)
  { s with
    J_uu := fun i j =>
      if i.val = N - 1 then
        matMul Srr ctx.lam_r_u i j + matMul Srt ctx.lam_t_u i j
      else if i.val = 0 then s.J_uu i j
      else
        matMul (matMul (diagM fun a => s.lam_z * ctx.r a / ctx.dt)
            (diagM s.lam_t)) ctx.lam_t_u i j
        - s.div_S i *
            (matMul (diagM fun a => k_J a / s.lam_r a) s.J_u i j
             - matMul (diagM fun a => k a / (s.lam_r a) ^ 2) ctx.lam_r_u i j)
        - k i / s.lam_r i *
            (matMul ctx.D
                (fun a b => matMul Srr ctx.lam_r_u a b + matMul Srt ctx.lam_t_u a b) i j
             + (matMul Srr ctx.lam_r_u i j + matMul Srt ctx.lam_t_u i j
                - matMul Str ctx.lam_r_u i j - matMul Stt ctx.lam_t_u i j) / ctx.r i)
    J_ul := fun i =>
      if i.val = N - 1 then Srz i
      else if i.val = 0 then s.J_ul i
      else
        ctx.r i / 2 / ctx.dt * (s.lam_t i) ^ 2
        - k_J i * s.J_l i / s.lam_r i * s.div_S i
        - k i / s.lam_r i * ((∑ m, ctx.D i m * Srz m) + (Srz i - Stz i) / ctx.r i)
    J_pu := fun i j =>
      if i.val = N - 1 then s.J_pu i j
      else
        -(matMul (diagM fun a =>
              ctx.r a * s.lam_r a * s.dLdt a / k a / s.J a) ctx.lam_r_u i j
          - matMul (diagM fun a =>
              ctx.r a * (s.lam_r a) ^ 2 * k_J a * s.dLdt a / 2 / (k a) ^ 2 / s.J a) s.J_u i j
          - matMul (diagM fun a =>
              ctx.r a * (s.lam_r a) ^ 2 * s.dLdt a / 2 / k a / (s.J a) ^ 2) s.J_u i j
          + matMul (diagM fun a =>
              ctx.r a * (s.lam_r a) ^ 2 * s.lam_t a * s.lam_z / k a / s.J a / ctx.dt)
              ctx.lam_t_u i j)
    J_pl := fun i =>
      if i.val = N - 1 then s.J_pl i
      else
        -(-(ctx.r i) * (s.lam_r i) ^ 2 * k_J i * s.J_l i / 2 / (k i) ^ 2 / s.J i * s.dLdt i
          - ctx.r i * (s.lam_r i) ^ 2 * s.J_l i / 2 / k i / (s.J i) ^ 2 * s.dLdt i
          + ctx.r i * (s.lam_r i) ^ 2 / 2 / k i / s.J i / ctx.dt * (s.lam_t i) ^ 2)
    J_lu := fun j =>
      -2 * ctx.piv *
        ∑ i, ctx.w i *
          (matMul (diagM fun a => s.lam_t a * s.p a * ctx.r a) ctx.lam_r_u i j
           + matMul (diagM fun a => s.lam_r a * s.p a * ctx.r a) ctx.lam_t_u i j)
    J_lp := fun j => -2 * ctx.piv * ctx.w j * s.lam_r j * s.lam_t j * ctx.r j
    J_ll := 2 * ctx.piv * ∑ i, ctx.w i * Szz i * ctx.r i }

/-- The assembled residual vector `FUN` scattered at the index layout
`ind_u = [0, N)`, `ind_p = [N, 2N)`, `ind_l = {2N}` (modelled from the
spec: the ranges partition `[0, 2N+1)`). -/
def FUNvec {N : ℕ} {K : Type} (s : FCState N K) : List K :=
  List.ofFn s.F_u ++ List.ofFn s.F_p ++ [s.F_l]

/-- State of a `ForceControlled` instance right after construction and a
consistent external state update to `(u, p, lam_z)`: the kinematic fields
and `J`, `J_u`, `J_l` are those maintained by the base context (modelled
from the spec: `lam_r`, `lam_t` via their linear maps, `J_u`, `J_l` the
exact derivatives of `J`), the residual and cache buffers are the zeros
preallocated in `ForceControlled.__init__`, `J_uu` row `0` holds the unit
row enforcing the centre condition and `J_pp` holds the constant pressure
block (rows of `D` with the drained-boundary unit row), both preallocated
by the external base class. -/
def initState {N : ℕ} {K : Type} [Field K] (ctx : Ctx N K)
    (u p : Fin N → K) (lam_z : K) (lam_t_old : Fin N → K) (lam_z_old : K) :
    FCState N K :=
  { u := u
    p := p
    lam_z := lam_z
    lam_r := lam_r_of ctx u
    lam_t := lam_t_of ctx u
    J := J_of ctx u lam_z
    J_u := fun i j => lam_t_of ctx u i * lam_z * ctx.lam_r_u i j
      + lam_r_of ctx u i * lam_z * ctx.lam_t_u i j
    J_l := fun i => lam_r_of ctx u i * lam_t_of ctx u i
    lam_t_old := lam_t_old
    lam_z_old := lam_z_old
    div_S := fun _ => 0
    dLdt := fun _ => 0
    F_u := fun _ => 0
    F_p := fun _ => 0
    F_l := 0
    J_uu := fun i j => if i.val = 0 then (if j.val = 0 then 1 else 0) else 0
    J_up := fun _ _ => 0
    J_ul := fun _ => 0
    J_pu := fun _ _ => 0
    J_pp := fun i j => if i.val = N - 1 then (if j.val = N - 1 then 1 else 0) else ctx.D i j
    J_pl := fun _ => 0
    J_lu := fun _ => 0
    J_lp := fun _ => 0
    J_ll := 0 }

/-- The `Solution` container (external `solution.py`, modelled from the
spec: a plain record populated by the experiment).  `p` keeps its NumPy
shape: the instantaneous solve stores a length-1 array, the steady solve
stores the scalar `0`. -/
structure Solution (N : ℕ) (K : Type) where
  r : Fin N → K
  t : List K
  u : Fin N → K
  p : NpVal K
  lam_z : K
  F : K
  fluid_load_fraction : K

/-- Modelled from the spec: `Experiment.compute_force` of the external
base class computes the quadrature-weighted integral of the effective
axial stress, `F = 2*pi*sum(w * (S_z - lam_r*lam_t*p) * r)`, matching the
force expression of the residual `F_l`.  Here the uniform instantaneous
fields (`lam_r`, `lam_t` and `p` are single-element arrays broadcast over
the grid) enter as scalars. -/
def compute_force_uniform {N : ℕ} {K : Type} [Field K] (ctx : Ctx N K)
    (lam_rv lam_tv p0 lam_z : K) : K :=
  2 * ctx.piv * ∑ i, ctx.w i * (ctx.Sz lam_z - lam_rv * lam_tv * p0) * ctx.r i

/-- The state set by the helper `fun(lam_z)` inside
`ForceControlled.initial_response`: uniform stretches
`lam_r = lam_t = 1/sqrt(lam_z)` (single-element arrays), displacement
`u = (1/sqrt(lam_z) - 1) * r`, pressure `p = 1/sqrt(lam_z) * S_r` and the
resulting axial force.  Returns `(u, lam_r value, p value, F)`. -/
def initial_state {N : ℕ} {K : Type} [Field K] (ctx : Ctx N K) (lam_z : K) :
    (Fin N → K) × K × K × K :=
  let lam_rv : K := 1 / ctx.sqrtv lam_z
  let u : Fin N → K := fun i => (1 / ctx.sqrtv lam_z - 1) * ctx.r i
  let S_r : K := ctx.Sr lam_rv lam_rv
  let p0 : K := 1 / ctx.sqrtv lam_z * S_r
  (u, lam_rv, p0, compute_force_uniform ctx lam_rv lam_rv p0 lam_z)

/-- The scalar residual solved by `ForceControlled.initial_response`:
`pars.physical["F"] - F` at the instantaneous state for a trial
`lam_z`. -/
def initial_fun {N : ℕ} {K : Type} [Field K] (ctx : Ctx N K) (lam_z : K) : K :=
  ctx.Fphys - (initial_state ctx lam_z).2.2.2

/-- `ForceControlled.initial_response`, with the external scalar root
finder (`scipy.optimize.root_scalar`, secant method) abstracted by its
outcome: `some root` on convergence, `none` on failure.  On failure the
code prints an error message and falls through to a bare `return`
(`None`); on success it re-evaluates the state at the root and populates
a `Solution`.  Returns the printed messages and the optional solution. -/
def initial_response {N : ℕ} {K : Type} [Field K] (ctx : Ctx N K)
    (outcome : Option K) : List String × Option (Solution N K) :=
  match outcome with
  | none => ([("ERROR: solver for initial response did not converge")], none)
  | some root =>
    let st := initial_state ctx root
    let u := st.1
    let p0 := st.2.2.1
    let F := st.2.2.2
    ([], some
      { r := ctx.r
        t := ctx.tpoints
        u := u
        p := NpVal.arr [p0]
        lam_z := root
        F := F
        fluid_load_fraction := ctx.computeFLF (NpVal.arr [p0]) F })

/-- The 2-equation residual solved by `ForceControlled.steady_response`:
zero radial stress and force balance at `p = 0`, as a function of
`X = (lam_r, lam_z)`. -/
def steady_fun {N : ℕ} {K : Type} [Field K] (ctx : Ctx N K) (X : K × K) :
    K × K :=
  let lam_rv := X.1
  let lam_z := X.2
  (ctx.Sr lam_rv lam_rv,
   ctx.Fphys - compute_force_uniform ctx lam_rv lam_rv 0 lam_z)

/-- `ForceControlled.steady_response`, with the external vector root
finder (`scipy.optimize.root`, seeded at `(1.1, pars.physical["lam_z"])`)
abstracted by its outcome.  On failure the code prints the (copy-pasted)
error message and returns `None`; on success it stores
`u = x[0] * sol.r`, `p = 0` (a scalar), `lam_z = x[1]` and the force. -/
def steady_response {N : ℕ} {K : Type} [Field K] (ctx : Ctx N K)
    (outcome : Option (K × K)) : List String × Option (Solution N K) :=
  match outcome with
  | none => ([("ERROR: solver for initial response did not converge")], none)
  | some x =>
    let F := compute_force_uniform ctx x.1 x.1 0 x.2
    ([], some
      { r := ctx.r
        t := ctx.tpoints
        u := fun i => x.1 * ctx.r i
        p := NpVal.scalar 0
        lam_z := x.2
        F := F
        fluid_load_fraction := ctx.computeFLF (NpVal.scalar 0) F })

/-- `ForceControlled.set_initial_guess`: after the instantaneous solve
has converged to `root` (setting `u`, `p` and `lam_z` on the instance),
replaces the pressure by the boundary-layer profile
`p[0] * (1 - exp(-(1 - r)/sqrt(t[1])))` built from the first positive
time point `sol.t[1]`, and returns `numpy.r_[u, p, lam_z]`.  Accessing
`sol.t[1]` on a shorter time array raises `IndexError`, modelled by
`none`. -/
def set_initial_guess {N : ℕ} {K : Type} [Field K] (ctx : Ctx N K)
    (root : K) (sol_t : List K) : Option (List K) :=
  match sol_t.get? 1 with
  | none => none
  | some t1 =>
    let st := initial_state ctx root
    let u := st.1
    let p0 := st.2.2.1
    let pbl : Fin N → K := fun i =>
      p0 * (1 - ctx.expv (-(1 - ctx.r i) / ctx.sqrtv t1))
    some (List.ofFn u ++ List.ofFn pbl ++ [root])

/-- The 2-equation free-swelling residual of
`Hydration.steady_response.fun`: radial and axial force balance
`(S_r - lam_r*lam_z*Pi(J), S_z - lam_r^2*Pi(J))` with
`J = lam_r^2 * lam_z` and `eval_stress` called at
`(lam_r, lam_r, lam_z)`.  The mechanics and osmosis models of the
`Hydration` class are arbitrary, so the stress closures are general
three-argument functions and `Pi` a scalar function of `J`. -/
def hydrationFun {K : Type} [Field K] (Sr3 Sz3 : K → K → K → K)
    (Pi : K → K) (X : K × K) : K × K :=
  let lam_r := X.1
  let lam_z := X.2
  let J := lam_r ^ 2 * lam_z
  let piv := Pi J
  (Sr3 lam_r lam_r lam_z - lam_r * lam_z * piv,
   Sz3 lam_r lam_r lam_z - lam_r ^ 2 * piv)

/-- `Hydration.steady_response`, with the external vector root finder
abstracted by a solver taking the residual and the seed.  The seed is
`(1.1, 1.1)`.  On success the code computes `J = lam_r^2 * lam_z` and
`phi_0 = 1 - 1/J` and returns the triple; on failure it raises, modelled
by `Except.error`. -/
def hydration_steady_response {K : Type} [Field K]
    (Sr3 Sz3 : K → K → K → K) (Pi : K → K)
    (solver : ((K × K) → K × K) → (K × K) → Option (K × K)) :
    Except String (K × K × K) :=
  match solver (hydrationFun Sr3 Sz3 Pi) ((11 : K) / 10, (11 : K) / 10) with
  | some x =>
    let lam_r := x.1
    let lam_z := x.2
    let J := lam_r ^ 2 * lam_z
    let phi_0 := 1 - 1 / J
    Except.ok (lam_r, lam_z, phi_0)
  | none => Except.error ("ERROR: Solver did not converge")

/-- The residual of `Hydration.steady_response.fun` with the osmosis
model evaluated through its NumPy interface: `J = lam_r^2 * lam_z` is a
scalar, and `eval_osmotic_pressure` receives that scalar.  With
broadcasting (`NpVal`) arithmetic for the returned pressure. -/
def hydrationFunPy {K : Type} [Field K] (Sr3 Sz3 : K → K → K → K)
    (osmEval : NpVal K → Except String (NpVal K)) (X : K × K) :
    Except String (NpVal K × NpVal K) := do
  let lam_r := X.1
  let lam_z := X.2
  let J := lam_r ^ 2 * lam_z
  let piv ← osmEval (NpVal.scalar J)
  pure (NpVal.rsub (Sr3 lam_r lam_r lam_z) (NpVal.smul (lam_r * lam_z) piv),
        NpVal.rsub (Sz3 lam_r lam_r lam_z) (NpVal.smul (lam_r ^ 2) piv))

/-- The two operations the outer Newton driver may invoke on the
experiment instance. -/
inductive FCOp where
  | residual : FCOp
  | jacobian : FCOp
deriving DecidableEq, Repr

/-- Run a sequence of `build_residual`/`build_jacobian` calls. -/
def runOps {N : ℕ} {K : Type} [Field K] (ctx : Ctx N K) :
    List FCOp → FCState N K → FCState N K
  | [], s => s
  | FCOp.residual :: ops, s => runOps ctx ops (build_residual ctx s)
  | FCOp.jacobian :: ops, s => runOps ctx ops (build_jacobian ctx s)

/-- The nine Jacobian blocks of an experiment state, in the assembly
order of `numpy.block`. -/
def JACblocks {N : ℕ} {K : Type} (s : FCState N K) :
    (Fin N → Fin N → K) × (Fin N → Fin N → K) × (Fin N → K) ×
    (Fin N → Fin N → K) × (Fin N → Fin N → K) × (Fin N → K) ×
    (Fin N → K) × (Fin N → K) × K :=
  (s.J_uu, s.J_up, s.J_ul, s.J_pu, s.J_pp, s.J_pl, s.J_lu, s.J_lp, s.J_ll)

/-- The experiment state after a consistent update to `(u, p, lam_z)`
followed by one `build_residual` call. -/
def resState {N : ℕ} {K : Type} [Field K] (ctx : Ctx N K)
    (u p : Fin N → K) (lam_z : K) (lam_t_old : Fin N → K) (lam_z_old : K) :
    FCState N K :=
  build_residual ctx (initState ctx u p lam_z lam_t_old lam_z_old)

/-- The experiment state after a consistent update to `(u, p, lam_z)`,
one `build_residual` call and one `build_jacobian` call (the only
call ordering under which the Jacobian contract applies). -/
def jacState {N : ℕ} {K : Type} [Field K] (ctx : Ctx N K)
    (u p : Fin N → K) (lam_z : K) (lam_t_old : Fin N → K) (lam_z_old : K) :
    FCState N K :=
  build_jacobian ctx (resState ctx u p lam_z lam_t_old lam_z_old)

/-- The nine outputs of `eval_stress_derivatives` as an ordered list. -/
def stressDerivList {K : Type} [Zero K]
    (S_r_r S_r_t S_t_r S_t_t : K → K → K) (S_z_z : K → K)
    (lam_r lam_t : List K) (lam_z : K) : List (Np2 K) :=
  let t9 := FibreReinforcedNH.eval_stress_derivatives S_r_r S_r_t S_t_r S_t_t
    S_z_z lam_r lam_t lam_z
  [t9.1, t9.2.1, t9.2.2.1, t9.2.2.2.1, t9.2.2.2.2.1, t9.2.2.2.2.2.1,
   t9.2.2.2.2.2.2.1, t9.2.2.2.2.2.2.2.1, t9.2.2.2.2.2.2.2.2]

/-- Whether an `Np2` value is an `n × n` matrix (2-dimensional array with
square shape). -/
def Np2.isSquareMatB {K : Type} : Np2 K → ℕ → Bool
  | Np2.mat m, n => m.length = n && m.all (fun row => row.length = n)
  | Np2.vec _, _ => false

/-- Whether an `Np2` value is an `n × n` diagonal matrix (square with all
off-diagonal entries zero). -/
def Np2.isDiagMatB {K : Type} [DecidableEq K] [Zero K] : Np2 K → ℕ → Bool
  | Np2.mat m, n =>
    (m.length = n) && (List.finRange m.length).all fun i =>
      ((m.get i).length = n) && (List.finRange (m.get i).length).all fun j =>
        (i.val = j.val) || (m.get i).get j = 0
  | Np2.vec _, _ => false

/-- Whether an `Np2` value is the all-zero `n × n` matrix. -/
def Np2.isZeroMatB {K : Type} [DecidableEq K] [Zero K] : Np2 K → ℕ → Bool
  | Np2.mat m, n => m = List.replicate n (List.replicate n (0 : K))
  | Np2.vec _, _ => false

/-- Whether an `Np2` value is a 1-dimensional array of length `n`. -/
def Np2.isVecLenB {K : Type} : Np2 K → ℕ → Bool
  | Np2.vec xs, n => xs.length = n
  | Np2.mat _, _ => false

/-- Whether an `Np2` value is the all-zero vector of length `n`. -/
def Np2.isZeroVecB {K : Type} [DecidableEq K] [Zero K] : Np2 K → ℕ → Bool
  | Np2.vec xs, n => xs = List.replicate n (0 : K)
  | Np2.mat _, _ => false

/-- A two-variable function `f` has partial derivatives `fx`, `fy`
(jointly, as a Fréchet derivative) everywhere.  This is the
differentiability contract of the compiled stress closures. -/
def HasPartials2 (f fx fy : ℝ → ℝ → ℝ) : Prop :=
  ∀ a b : ℝ, HasFDerivAt (fun q : ℝ × ℝ => f q.1 q.2)
    (fx a b • ContinuousLinearMap.fst ℝ ℝ ℝ +
     fy a b • ContinuousLinearMap.snd ℝ ℝ ℝ) (a, b)

/-- Concrete rational test context on a two-point grid, used by the
witnesses. -/
def testCtx : Ctx 2 ℚ :=
  { r := ![0, 1]
    D := ![![-1, 1], ![-1, 1]]
    w := ![1/2, 1/2]
    dt := 1
    Fphys := 0
    lam_z_phys := 1
    piv := 3
    sqrtv := fun x => x
    expv := fun x => x
    Sr := fun a b => a + b - 2
    St := fun a b => a * b - 1
    Sz := fun c => c - 1
    Sr_r := fun _ _ => 1
    Sr_t := fun _ _ => 1
    St_r := fun _ b => b
    St_t := fun a _ => a
    Sz_z := fun _ => 1
    kf := fun _ => 1
    kJ := fun _ => 0
    lam_r_u := ![![2, 0], ![0, 3]]
    lam_t_u := ![![1, 0], ![0, 1]]
    lam_r0 := ![1, 1]
    lam_t0 := ![1, 1]
    tpoints := [0, 4]
    computeFLF := fun _ _ => 0 }

/-- Concrete experiment state used by the witnesses. -/
def testState : FCState 2 ℚ :=
  initState testCtx ![3, 5] ![7, 2] 2 ![1, 1] 1

/-- Concrete real test context on a two-point grid with differentiable
nonconstant stress and permeability closures, used by the
Jacobian-exactness witness. -/
noncomputable def testCtxR : Ctx 2 ℝ :=
  { r := ![0, 1]
    D := ![![-1, 1], ![-1, 1]]
    w := ![1/2, 1/2]
    dt := 1
    Fphys := 0
    lam_z_phys := 1
    piv := 3
    sqrtv := fun x => x
    expv := fun x => x
    Sr := fun a b => a * b
    St := fun a b => a + b
    Sz := fun c => c * c
    Sr_r := fun _ b => b
    Sr_t := fun a _ => a
    St_r := fun _ _ => 1
    St_t := fun _ _ => 1
    Sz_z := fun c => c + c
    kf := fun x => x + 1
    kJ := fun _ => 1
    lam_r_u := fun i j => if i = j then 1 else 0
    lam_t_u := fun i j => if i = j then 1 else 0
    lam_r0 := fun _ => 1
    lam_t0 := fun _ => 1
    tpoints := [0, 4]
    computeFLF := fun _ _ => 0 }

/-!  ### Theorems  -/

/-- C2: after `build_residual` runs, the first displacement-residual
entry equals the first displacement entry exactly and the last
pressure-residual entry equals the last pressure entry exactly,
for every state (hence independently of the interior field values), on
any grid with at least two nodes. -/
theorem C2_residual_boundary_rows {N : ℕ} {K : Type} [Field K]
    (ctx : Ctx N K) (s : FCState N K) (hN : 2 ≤ N) :
    (build_residual ctx s).F_u ⟨0, by omega⟩ = s.u ⟨0, by omega⟩ ∧
    (build_residual ctx s).F_p ⟨N - 1, by omega⟩ = s.p ⟨N - 1, by omega⟩ := by
  have h0 : (0 : ℕ) ≠ N - 1 := by omega
  constructor
  · show (if (0 : ℕ) = N - 1 then _ else if (0 : ℕ) = 0 then _ else _) = _
    rw [if_neg h0, if_pos rfl]
  · show (if (N - 1 : ℕ) = N - 1 then _ else _) = _
    rw [if_pos rfl]

/-- Witness for C2 at a concrete two-node state. -/
theorem C2_residual_boundary_rows_witness :
    2 ≤ 2 ∧
    ((build_residual testCtx testState).F_u ⟨0, by omega⟩ =
        testState.u ⟨0, by omega⟩ ∧
      (build_residual testCtx testState).F_p ⟨2 - 1, by omega⟩ =
        testState.p ⟨2 - 1, by omega⟩) :=
  ⟨by norm_num, C2_residual_boundary_rows testCtx testState (by norm_num)⟩

/-- C8: `build_residual` and `build_jacobian` are deterministic and
idempotent in the experiment state: a second `build_residual` call on
unchanged state reproduces the same `FUN`, and `build_jacobian` computed
after either one or two identical `build_residual` calls produces the
same Jacobian blocks. -/
theorem C8_residual_jacobian_idempotent {N : ℕ} {K : Type} [Field K]
    (ctx : Ctx N K) (s : FCState N K) :
    FUNvec (build_residual ctx (build_residual ctx s)) =
      FUNvec (build_residual ctx s) ∧
    JACblocks (build_jacobian ctx (build_residual ctx (build_residual ctx s))) =
      JACblocks (build_jacobian ctx (build_residual ctx s)) :=
  ⟨rfl, rfl⟩

/-- Neither `build_residual` nor `build_jacobian` ever writes the
`J_up` block. -/
theorem J_up_preserved_runOps {N : ℕ} {K : Type} [Field K] (ctx : Ctx N K)
    (ops : List FCOp) (s : FCState N K) :
    (runOps ctx ops s).J_up = s.J_up := by
  induction ops generalizing s with
  | nil => rfl
  | cons op ops ih =>
    cases op with
    | residual => exact (ih (build_residual ctx s)).trans rfl
    | jacobian => exact (ih (build_jacobian ctx s)).trans rfl

/-- C9: the `J_up` block (displacement-residual rows, pressure columns)
is allocated as an `N × N` zero matrix at construction and never written
by any sequence of `build_residual`/`build_jacobian` calls, so it is
identically zero: `F_u` does not depend on `p`. -/
theorem C9_J_up_identically_zero {N : ℕ} {K : Type} [Field K]
    (ctx : Ctx N K) (u p : Fin N → K) (lam_z : K) (lam_t_old : Fin N → K)
    (lam_z_old : K) (ops : List FCOp) (i j : Fin N) :
    (runOps ctx ops (initState ctx u p lam_z lam_t_old lam_z_old)).J_up i j
      = 0 := by
  rw [J_up_preserved_runOps]
  rfl

/-- C6: on root-finder non-convergence the instantaneous and steady
solves of `ForceControlled` print a failure message and return the
sentinel `None` (no exception), while `Hydration.steady_response`
raises; this asymmetry holds on every non-converged run. -/
theorem C6_nonconvergence_asymmetry {N : ℕ} {K : Type} [Field K]
    (ctx : Ctx N K) (Sr3 Sz3 : K → K → K → K) (Pi : K → K)
    (solver : ((K × K) → K × K) → (K × K) → Option (K × K))
    (hfail : solver (hydrationFun Sr3 Sz3 Pi) ((11 : K) / 10, (11 : K) / 10)
      = none) :
    (initial_response ctx none).2 = none ∧
    (initial_response ctx none).1 =
      [("ERROR: solver for initial response did not converge")] ∧
    (steady_response ctx none).2 = none ∧
    (steady_response ctx none).1 =
      [("ERROR: solver for initial response did not converge")] ∧
    hydration_steady_response Sr3 Sz3 Pi solver =
      Except.error ("ERROR: Solver did not converge") := by
  refine ⟨rfl, rfl, rfl, rfl, ?_⟩
  unfold hydration_steady_response
  rw [hfail]

/-- Witness for C6 with a solver that always fails. -/
theorem C6_nonconvergence_asymmetry_witness :
    (initial_response testCtx none).2 = none ∧
    (initial_response testCtx none).1 =
      [("ERROR: solver for initial response did not converge")] ∧
    (steady_response testCtx none).2 = none ∧
    (steady_response testCtx none).1 =
      [("ERROR: solver for initial response did not converge")] ∧
    hydration_steady_response (fun _ _ _ => (0 : ℚ)) (fun _ _ _ => 0)
      (fun _ => 0) (fun _ _ => none) =
      Except.error ("ERROR: Solver did not converge") :=
  C6_nonconvergence_asymmetry testCtx (fun _ _ _ => 0) (fun _ _ _ => 0)
    (fun _ => 0) (fun _ _ => none) rfl

/-- C4: `Hydration.steady_response` solves exactly the two-equation
system `S_r - lam_r*lam_z*Pi(J) = 0`, `S_z - lam_r^2*Pi(J) = 0` with
`J = lam_r^2*lam_z`, seeds the vector root finder at `(1.1, 1.1)`, and,
whenever the root finder succeeds with root `x`, returns exactly the
triple `(lam_r, lam_z, phi_0)` with `phi_0 = 1 - 1/(lam_r^2*lam_z)`
evaluated at the root; any other outcome is the raised error, so no other
result shape is returned. -/
theorem C4_hydration_steady_structure {K : Type} [Field K]
    (Sr3 Sz3 : K → K → K → K) (Pi : K → K)
    (solver : ((K × K) → K × K) → (K × K) → Option (K × K)) :
    (∀ X : K × K, hydrationFun Sr3 Sz3 Pi X =
      (Sr3 X.1 X.1 X.2 - X.1 * X.2 * Pi (X.1 ^ 2 * X.2),
       Sz3 X.1 X.1 X.2 - X.1 ^ 2 * Pi (X.1 ^ 2 * X.2))) ∧
    (∀ x : K × K,
      solver (hydrationFun Sr3 Sz3 Pi) ((11 : K) / 10, (11 : K) / 10) = some x →
      hydration_steady_response Sr3 Sz3 Pi solver =
        Except.ok (x.1, x.2, 1 - 1 / (x.1 ^ 2 * x.2))) ∧
    (solver (hydrationFun Sr3 Sz3 Pi) ((11 : K) / 10, (11 : K) / 10) = none →
      hydration_steady_response Sr3 Sz3 Pi solver =
        Except.error ("ERROR: Solver did not converge")) := by
  refine ⟨fun X => rfl, fun x hx => ?_, fun hn => ?_⟩
  · unfold hydration_steady_response
    rw [hx]
  · unfold hydration_steady_response
    rw [hn]

/-- Witness for C4 with a solver that succeeds at `(1, 1)`. -/
theorem C4_hydration_steady_structure_witness :
    hydration_steady_response (fun _ _ _ => (0 : ℚ)) (fun _ _ _ => 0)
      (fun _ => 0) (fun _ _ => some (1, 1)) =
      Except.ok (1, 1, 1 - 1 / (1 ^ 2 * 1)) :=
  (C4_hydration_steady_structure (fun _ _ _ => (0 : ℚ)) (fun _ _ _ => 0)
    (fun _ => 0) (fun _ _ => some (1, 1))).2.1 (1, 1) rfl

/-- C5 (divergence witness): calling the free-swelling residual of
`Hydration.steady_response` with the `NoOsmosis` model raises a
`TypeError` already at the seed `(1.1, 1.1)`: the scalar
`J = lam_r^2 * lam_z` is passed to `NoOsmosis.eval_osmotic_pressure`,
which computes `zeros(len(J))`, and `len` of a scalar fails.  The solver
therefore cannot converge to `(1, 1, 0)` as the spec requires. -/
theorem C5_noosmosis_hydration_typeerror (Sr3 Sz3 : ℚ → ℚ → ℚ → ℚ) :
    hydrationFunPy Sr3 Sz3 NoOsmosis.eval_osmotic_pressure
      ((11 : ℚ) / 10, (11 : ℚ) / 10) =
      Except.error ("TypeError: object of type numpy.float64 has no len()") :=
  rfl

/-- C7: for a time array with at least two entries,
`set_initial_guess` (after the instantaneous response has converged to
`root`) sets the pressure to
`p[0] * (1 - exp(-(1 - r)/sqrt(t[1])))` — built from the first positive
time `t[1]`, not `t[0]` — and returns the concatenation `[u; p; lam_z]`,
a vector of length `2N + 1`. -/
theorem C7_set_initial_guess_structure {N : ℕ} {K : Type} [Field K]
    (ctx : Ctx N K) (root : K) (t : List K) (h2 : 2 ≤ t.length) :
    set_initial_guess ctx root t =
      some (List.ofFn (fun i : Fin N => (1 / ctx.sqrtv root - 1) * ctx.r i) ++
        List.ofFn (fun i : Fin N =>
          1 / ctx.sqrtv root * ctx.Sr (1 / ctx.sqrtv root) (1 / ctx.sqrtv root) *
            (1 - ctx.expv (-(1 - ctx.r i) / ctx.sqrtv (t.get ⟨1, by omega⟩)))) ++
        [root]) ∧
    (∀ X, set_initial_guess ctx root t = some X → X.length = 2 * N + 1) := by
  have ht : t.get? 1 = some (t.get ⟨1, by omega⟩) := List.get?_eq_get (by omega)
  have hmain : set_initial_guess ctx root t =
      some (List.ofFn (fun i : Fin N => (1 / ctx.sqrtv root - 1) * ctx.r i) ++
        List.ofFn (fun i : Fin N =>
          1 / ctx.sqrtv root * ctx.Sr (1 / ctx.sqrtv root) (1 / ctx.sqrtv root) *
            (1 - ctx.expv (-(1 - ctx.r i) / ctx.sqrtv (t.get ⟨1, by omega⟩)))) ++
        [root]) := by
    unfold set_initial_guess
    rw [ht]
    rfl
  refine ⟨hmain, fun X hX => ?_⟩
  rw [hmain] at hX
  cases hX
  simp only [List.length_append, List.length_ofFn, List.length_singleton]
  omega

/-- Witness for C7 on the concrete test context. -/
theorem C7_set_initial_guess_structure_witness :
    2 ≤ ([(0 : ℚ), 4]).length ∧
    (set_initial_guess testCtx 1 [(0 : ℚ), 4] =
      some (List.ofFn (fun i : Fin 2 => (1 / testCtx.sqrtv 1 - 1) * testCtx.r i) ++
        List.ofFn (fun i : Fin 2 =>
          1 / testCtx.sqrtv 1 * testCtx.Sr (1 / testCtx.sqrtv 1) (1 / testCtx.sqrtv 1) *
            (1 - testCtx.expv (-(1 - testCtx.r i) /
              testCtx.sqrtv (([(0 : ℚ), 4]).get ⟨1, by norm_num⟩)))) ++
        [1]) ∧
    (∀ X, set_initial_guess testCtx 1 [(0 : ℚ), 4] = some X →
      X.length = 2 * 2 + 1)) :=
  ⟨by norm_num, C7_set_initial_guess_structure testCtx 1 [0, 4] (by norm_num)⟩

/-- C10: the steady solve stores `sol.u = lam_r_star * r` while the
instantaneous solve stores `u = (1/sqrt(lam_z) - 1) * r`; the two solves
use different displacement-from-stretch conventions, and in the
undeformed steady state `lam_r_star = 1` the stored displacement equals
`r` itself, which does not vanish at the outer node where `r = 1`. -/
theorem C10_displacement_conventions {N : ℕ} {K : Type} [Field K]
    (ctx : Ctx N K) (x : K × K) (rt : K) (hN : 0 < N)
    (hr1 : ctx.r ⟨N - 1, by omega⟩ = 1) :
    (∀ sol, (steady_response ctx (some x)).2 = some sol →
      ∀ i, sol.u i = x.1 * ctx.r i) ∧
    (∀ sol, (initial_response ctx (some rt)).2 = some sol →
      ∀ i, sol.u i = (1 / ctx.sqrtv rt - 1) * ctx.r i) ∧
    (x.1 = 1 → ∀ sol, (steady_response ctx (some x)).2 = some sol →
      sol.u ⟨N - 1, by omega⟩ ≠ 0) := by
  refine ⟨fun sol h i => ?_, fun sol h i => ?_, fun hx sol h => ?_⟩
  · cases h; rfl
  · cases h; rfl
  · cases h
    show x.1 * ctx.r ⟨N - 1, by omega⟩ ≠ 0
    rw [hx, hr1, one_mul]
    exact one_ne_zero

/-- Witness for C10 on the concrete test context. -/
theorem C10_displacement_conventions_witness :
    0 < 2 ∧ testCtx.r ⟨2 - 1, by omega⟩ = 1 ∧
    ((∀ sol, (steady_response testCtx (some ((1 : ℚ), 2))).2 = some sol →
      ∀ i, sol.u i = (1 : ℚ) * testCtx.r i) ∧
    (∀ sol, (initial_response testCtx (some (4 : ℚ))).2 = some sol →
      ∀ i, sol.u i = (1 / testCtx.sqrtv 4 - 1) * testCtx.r i) ∧
    (((1 : ℚ), 2).1 = 1 → ∀ sol,
      (steady_response testCtx (some ((1 : ℚ), 2))).2 = some sol →
      sol.u ⟨2 - 1, by omega⟩ ≠ 0)) :=
  ⟨by norm_num, by norm_num [testCtx],
    C10_displacement_conventions testCtx (1, 2) 4 (by norm_num)
      (by norm_num [testCtx])⟩

/-- `numpy.diag` of a vector is a square diagonal matrix of matching
size. -/
theorem npDiag_isDiagMatB {K : Type} [DecidableEq K] [Zero K]
    (xs : List K) : (npDiag xs).isDiagMatB xs.length = true := by
  unfold npDiag Np2.isDiagMatB
  simp only [Bool.and_eq_true, decide_eq_true_eq, List.all_eq_true,
    List.length_map, List.length_finRange]
  refine ⟨trivial, fun i hi => ?_⟩
  simp only [Bool.and_eq_true, decide_eq_true_eq, List.all_eq_true,
    List.get_eq_getElem, List.getElem_map, List.getElem_finRange,
    List.length_map, List.length_finRange]
  refine ⟨trivial, fun j hj => ?_⟩
  simp only [List.get_eq_getElem, List.getElem_map, List.getElem_finRange,
    Bool.or_eq_true, decide_eq_true_eq]
  by_cases h : (i : ℕ) = (j : ℕ)
  · exact Or.inl h
  · refine Or.inr ?_
    rw [if_neg]
    intro hc
    exact h (congrArg Fin.val hc)

/-- C3 counterexample: at the one-node input `lam_r = [2]`, `lam_t = [3]`,
`lam_z = 5` with nonzero derivative closures, the nine outputs of
`eval_stress_derivatives` do not contain exactly three `(N,N)` diagonal
matrices and exactly three all-zero `(N,N)` matrices (there are four
diagonal matrices and no all-zero matrix: the zero couplings are
length-`N` vectors). -/
theorem C3_counterexample :
    ¬ ((stressDerivList (fun a b => a + b) (fun a b => a * b)
          (fun a b => a - b) (fun a b => a + 2 * b) (fun c : ℚ => c)
          [2] [3] 5).countP (fun v => v.isDiagMatB 1) = 3 ∧
       (stressDerivList (fun a b => a + b) (fun a b => a * b)
          (fun a b => a - b) (fun a b => a + 2 * b) (fun c : ℚ => c)
          [2] [3] 5).countP (fun v => v.isZeroMatB 1) = 3 ∧
       (Np2.vec (List.replicate 1 ((fun c : ℚ => c) 5))).isVecLenB 1 = true) := by
  decide

/-- C3 (amended): on inputs of matching length `N`,
`eval_stress_derivatives` returns exactly four `(N,N)` diagonal matrices
(with diagonal entries `S_r_r`, `S_r_t`, `S_t_r`, `S_t_t` evaluated
elementwise), four all-zero length-`N` vectors (not `(N,N)` matrices) in
the z-coupling slots, and a length-`N` vector for `S_z_z`, in the order
`diag(S_r_r), diag(S_r_t), zeros, diag(S_t_r), diag(S_t_t), zeros, zeros,
zeros, S_z_z`. -/
theorem C3_stress_derivative_shapes {K : Type} [Field K] [DecidableEq K]
    (S_r_r S_r_t S_t_r S_t_t : K → K → K) (S_z_z : K → K)
    (lam_r lam_t : List K) (lam_z : K)
    (hlen : lam_t.length = lam_r.length) :
    (stressDerivList S_r_r S_r_t S_t_r S_t_t S_z_z lam_r lam_t
        lam_z).countP (fun v => v.isDiagMatB lam_r.length) = 4 ∧
    stressDerivList S_r_r S_r_t S_t_r S_t_t S_z_z lam_r lam_t lam_z =
      [npDiag (List.zipWith S_r_r lam_r lam_t),
       npDiag (List.zipWith S_r_t lam_r lam_t),
       np2Zeros K lam_r.length,
       npDiag (List.zipWith S_t_r lam_r lam_t),
       npDiag (List.zipWith S_t_t lam_r lam_t),
       np2Zeros K lam_r.length,
       np2Zeros K lam_r.length,
       np2Zeros K lam_r.length,
       Np2.vec (List.replicate lam_r.length (S_z_z lam_z))] ∧
    (np2Zeros K lam_r.length).isZeroVecB lam_r.length = true ∧
    (np2Zeros K lam_r.length).isSquareMatB lam_r.length = false ∧
    (Np2.vec (List.replicate lam_r.length (S_z_z lam_z))).isVecLenB
      lam_r.length = true := by
  have hz : (List.zipWith S_r_r lam_r lam_t).length = lam_r.length := by
    rw [List.length_zipWith, hlen, min_self]
  have hd : ∀ f : K → K → K,
      (npDiag (List.zipWith f lam_r lam_t)).isDiagMatB lam_r.length = true := by
    intro f
    have h := npDiag_isDiagMatB (List.zipWith f lam_r lam_t)
    rwa [List.length_zipWith, hlen, min_self] at h
  refine ⟨?_, rfl, by simp [np2Zeros, Np2.isZeroVecB],
    by simp [np2Zeros, Np2.isSquareMatB], by simp [Np2.isVecLenB]⟩
  have h1 := hd S_r_r
  have h2 := hd S_r_t
  have h4 := hd S_t_r
  have h5 := hd S_t_t
  have hzv : ∀ x : K, (Np2.vec (List.replicate lam_r.length x)).isDiagMatB
      lam_r.length = false := fun _ => rfl
  simp [stressDerivList, FibreReinforcedNH.eval_stress_derivatives,
    List.countP_cons, List.countP_nil, np2Zeros, h1, h2, h4, h5, hzv]

/-- Witness for the amended C3 on a concrete one-node input. -/
theorem C3_stress_derivative_shapes_witness :
    ([3] : List ℚ).length = ([2] : List ℚ).length ∧
    (stressDerivList (fun a b => a + b) (fun a b => a * b) (fun a b => a - b)
        (fun a b => a + 2 * b) (fun c : ℚ => c) [2] [3] 5).countP
      (fun v => v.isDiagMatB ([2] : List ℚ).length) = 4 :=
  ⟨rfl, (C3_stress_derivative_shapes (fun a b => a + b) (fun a b => a * b)
    (fun a b => a - b) (fun a b => a + 2 * b) (fun c : ℚ => c)
    [2] [3] 5 rfl).1⟩

/-!  ### Exactness of the analytic Jacobian (C1)

The partial-derivative helper lemmas below realise the chain rule through
the affine kinematic maps, the two-variable stress closures and the
permeability closure.  -/

/-- The dot product against a coordinate update is differentiable in the
updated coordinate, with derivative the corresponding coefficient. -/
theorem hasDerivAt_affineDot {N : ℕ} (b : ℝ) (c u : Fin N → ℝ) (j : Fin N) :
    HasDerivAt (fun t => b + ∑ m, c m * Function.update u j t m) (c j)
      (u j) := by
  have hsum : ∀ t, (∑ m, c m * Function.update u j t m)
      = (∑ m, c m * u m) + c j * (t - u j) := by
    intro t
    have hterm : ∀ m : Fin N, c m * Function.update u j t m
        = c m * u m + (if j = m then c j * (t - u j) else 0) := by
      intro m
      by_cases hm : m = j
      · subst hm
        rw [Function.update_same, if_pos rfl]
        ring
      · rw [Function.update_noteq hm, if_neg (fun h => hm h.symm), add_zero]
    rw [Finset.sum_congr rfl (fun m _ => hterm m), Finset.sum_add_distrib,
      Finset.sum_ite_eq Finset.univ j (fun _ => c j * (t - u j))]
    simp
  have hfun : (fun t => b + ∑ m, c m * Function.update u j t m)
      = fun t => (b + ∑ m, c m * u m) + c j * (t - u j) := by
    funext t
    rw [hsum t]
    ring
  rw [hfun]
  simpa using
    (((hasDerivAt_id (u j)).sub_const (u j)).const_mul (c j)).const_add
      (b + ∑ m, c m * u m)

/-- Partial derivative of the radial-stretch map in a displacement
coordinate. -/
theorem hasDerivAt_lam_r_update {N : ℕ} (ctx : Ctx N ℝ) (u : Fin N → ℝ)
    (j i : Fin N) :
    HasDerivAt (fun t => lam_r_of ctx (Function.update u j t) i)
      (ctx.lam_r_u i j) (u j) :=
  hasDerivAt_affineDot (ctx.lam_r0 i) (fun m => ctx.lam_r_u i m) u j

/-- Partial derivative of the circumferential-stretch map in a
displacement coordinate. -/
theorem hasDerivAt_lam_t_update {N : ℕ} (ctx : Ctx N ℝ) (u : Fin N → ℝ)
    (j i : Fin N) :
    HasDerivAt (fun t => lam_t_of ctx (Function.update u j t) i)
      (ctx.lam_t_u i j) (u j) :=
  hasDerivAt_affineDot (ctx.lam_t0 i) (fun m => ctx.lam_t_u i m) u j

/-- Chain rule through a two-variable closure with joint partial
derivatives, along two differentiable curves. -/
theorem HasPartials2.comp_curves {f fx fy : ℝ → ℝ → ℝ}
    (hf : HasPartials2 f fx fy) {g h : ℝ → ℝ} {gd hd x : ℝ}
    (hg : HasDerivAt g gd x) (hh : HasDerivAt h hd x) :
    HasDerivAt (fun t => f (g t) (h t))
      (fx (g x) (h x) * gd + fy (g x) (h x) * hd) x := by
  have hcurve : HasDerivAt (fun t => (g t, h t)) ((gd, hd) : ℝ × ℝ) x :=
    hg.prod hh
  have h2 := (hf (g x) (h x)).comp_hasDerivAt x hcurve
  simpa [Function.comp, ContinuousLinearMap.add_apply,
    ContinuousLinearMap.smul_apply, smul_eq_mul] using h2

/-- A diagonal matrix acting from the left picks out the row scale. -/
theorem matMul_diagM_left {N : ℕ} {K : Type} [Field K] (v : Fin N → K)
    (M : Fin N → Fin N → K) (i j : Fin N) :
    matMul (diagM v) M i j = v i * M i j := by
  unfold matMul diagM
  rw [Finset.sum_congr rfl
    (fun m _ => by rw [ite_mul, zero_mul] :
      ∀ m ∈ Finset.univ, (if i = m then v i else 0) * M m j
        = if i = m then v i * M m j else 0)]
  rw [Finset.sum_ite_eq Finset.univ i (fun m => v i * M m j)]
  simp

/-- Derivative of a coordinate update in the updated coordinate. -/
theorem hasDerivAt_update_coord {N : ℕ} (p : Fin N → ℝ) (j i : Fin N) :
    HasDerivAt (fun t => Function.update p j t i) (if i = j then 1 else 0)
      (p j) := by
  by_cases h : i = j
  · subst h
    have hfun : (fun t => Function.update p i t i) = fun t => t :=
      funext fun t => Function.update_same i t p
    rw [hfun, if_pos rfl]
    exact hasDerivAt_id (p i)
  · have hfun : (fun t => Function.update p j t i) = fun _ => p i :=
      funext fun t => Function.update_noteq h t p
    rw [hfun, if_neg h]
    exact hasDerivAt_const (p j) (p i)

/-- Chain rule for a stress closure through the affine stretch maps, in
a displacement coordinate. -/
theorem hasDerivAt_stress_update {N : ℕ} (ctx : Ctx N ℝ)
    {f fx fy : ℝ → ℝ → ℝ} (hf : HasPartials2 f fx fy) (u : Fin N → ℝ)
    (j i : Fin N) :
    HasDerivAt
      (fun t => f (lam_r_of ctx (Function.update u j t) i)
        (lam_t_of ctx (Function.update u j t) i))
      (fx (lam_r_of ctx u i) (lam_t_of ctx u i) * ctx.lam_r_u i j
        + fy (lam_r_of ctx u i) (lam_t_of ctx u i) * ctx.lam_t_u i j)
      (u j) := by
  have h := hf.comp_curves (hasDerivAt_lam_r_update ctx u j i)
    (hasDerivAt_lam_t_update ctx u j i)
  simpa [Function.update_eq_self] using h

/-- Derivative of the volumetric Jacobian in a displacement coordinate:
the `J_u` entry maintained by the base context. -/
theorem hasDerivAt_J_update {N : ℕ} (ctx : Ctx N ℝ) (u : Fin N → ℝ)
    (lz : ℝ) (j i : Fin N) :
    HasDerivAt (fun t => J_of ctx (Function.update u j t) lz i)
      (lam_t_of ctx u i * lz * ctx.lam_r_u i j
        + lam_r_of ctx u i * lz * ctx.lam_t_u i j) (u j) := by
  have h := ((hasDerivAt_lam_r_update ctx u j i).mul
    (hasDerivAt_lam_t_update ctx u j i)).mul_const lz
  have h2 : HasDerivAt (fun t => J_of ctx (Function.update u j t) lz i)
      ((ctx.lam_r_u i j * lam_t_of ctx (Function.update u j (u j)) i
        + lam_r_of ctx (Function.update u j (u j)) i * ctx.lam_t_u i j) * lz)
      (u j) := h
  rw [Function.update_eq_self] at h2
  convert h2 using 1
  ring

/-- Derivative of the permeability in a displacement coordinate. -/
theorem hasDerivAt_k_update {N : ℕ} (ctx : Ctx N ℝ) (u : Fin N → ℝ)
    (lz : ℝ) (j i : Fin N)
    (hkf : ∀ x, HasDerivAt ctx.kf (ctx.kJ x) x) :
    HasDerivAt (fun t => ctx.kf (J_of ctx (Function.update u j t) lz i))
      (ctx.kJ (J_of ctx u lz i) *
        (lam_t_of ctx u i * lz * ctx.lam_r_u i j
          + lam_r_of ctx u i * lz * ctx.lam_t_u i j)) (u j) := by
  have hy : J_of ctx u lz i = J_of ctx (Function.update u j (u j)) lz i := by
    rw [Function.update_eq_self]
  have h := HasDerivAt.comp_of_eq (u j) (hkf (J_of ctx u lz i))
    (hasDerivAt_J_update ctx u lz j i) hy
  simpa [Function.comp] using h

/-- Derivative of `dLdt` in a displacement coordinate. -/
theorem hasDerivAt_dLdt_update {N : ℕ} (ctx : Ctx N ℝ) (u : Fin N → ℝ)
    (lz : ℝ) (told : Fin N → ℝ) (lzold : ℝ) (j i : Fin N) :
    HasDerivAt
      (fun t => 1 / ctx.dt *
        ((lam_t_of ctx (Function.update u j t) i) ^ 2 * lz
          - (told i) ^ 2 * lzold))
      (1 / ctx.dt * (2 * lam_t_of ctx u i * ctx.lam_t_u i j * lz))
      (u j) := by
  have h := ((((hasDerivAt_lam_t_update ctx u j i).pow 2).mul_const
    lz).sub_const ((told i) ^ 2 * lzold)).const_mul (1 / ctx.dt)
  have h2 : 1 / ctx.dt * ((2 : ℕ) *
      lam_t_of ctx (Function.update u j (u j)) i ^ (2 - 1)
        * ctx.lam_t_u i j * lz)
      = 1 / ctx.dt * (2 * lam_t_of ctx u i * ctx.lam_t_u i j * lz) := by
    rw [Function.update_eq_self]
    norm_num
  rw [h2] at h
  exact h

/-- The displacement residual has zero derivative in every pressure
coordinate, matching the preallocated zero `J_up` block. -/
theorem hasDerivAt_resF_u_col_p {N : ℕ} (ctx : Ctx N ℝ) (u p : Fin N → ℝ)
    (lz : ℝ) (told : Fin N → ℝ) (lzold : ℝ) (i j : Fin N) :
    HasDerivAt
      (fun t => (resState ctx u (Function.update p j t) lz told lzold).F_u i)
      ((jacState ctx u p lz told lzold).J_up i j) (p j) := by
  have hconst :
      (fun t => (resState ctx u (Function.update p j t) lz told lzold).F_u i)
        = fun _ => (resState ctx u p lz told lzold).F_u i := rfl
  have h0 : (jacState ctx u p lz told lzold).J_up i j = 0 := rfl
  rw [hconst, h0]
  exact hasDerivAt_const (p j) _

/-- The pressure residual has the constant pressure block `J_pp`
(preallocated rows of `D` with the drained-boundary unit row) as its
derivative in every pressure coordinate. -/
theorem hasDerivAt_resF_p_col_p {N : ℕ} (ctx : Ctx N ℝ) (u p : Fin N → ℝ)
    (lz : ℝ) (told : Fin N → ℝ) (lzold : ℝ) (i j : Fin N) :
    HasDerivAt
      (fun t => (resState ctx u (Function.update p j t) lz told lzold).F_p i)
      ((jacState ctx u p lz told lzold).J_pp i j) (p j) := by
  by_cases hlast : i.val = N - 1
  · have hfun :
        (fun t => (resState ctx u (Function.update p j t) lz told lzold).F_p i)
          = fun t => Function.update p j t i := by
      funext t
      show (if i.val = N - 1 then Function.update p j t i else _)
        = Function.update p j t i
      rw [if_pos hlast]
    have htgt : (jacState ctx u p lz told lzold).J_pp i j
        = if j.val = N - 1 then 1 else 0 := by
      show (if i.val = N - 1 then (if j.val = N - 1 then (1:ℝ) else 0)
        else ctx.D i j) = _
      rw [if_pos hlast]
    have hij : (i = j) ↔ (j.val = N - 1) := by
      constructor
      · intro h; rw [← h]; exact hlast
      · intro h; exact Fin.ext (hlast.trans h.symm)
    rw [hfun, htgt]
    have h := hasDerivAt_update_coord p j i
    by_cases hj : i = j
    · rw [if_pos hj] at h
      rw [if_pos (hij.mp hj)]
      exact h
    · rw [if_neg hj] at h
      rw [if_neg (fun hc => hj (hij.mpr hc))]
      exact h
  · have hfun :
        (fun t => (resState ctx u (Function.update p j t) lz told lzold).F_p i)
          = fun t => (∑ m, ctx.D i m * Function.update p j t m) -
              ctx.r i * (lam_r_of ctx u i) ^ 2 / 2 / ctx.kf (J_of ctx u lz i)
                / J_of ctx u lz i *
                (1 / ctx.dt * ((lam_t_of ctx u i) ^ 2 * lz
                  - (told i) ^ 2 * lzold)) := by
      funext t
      show (if i.val = N - 1 then _ else _) = _
      rw [if_neg hlast]
      rfl
    have htgt : (jacState ctx u p lz told lzold).J_pp i j = ctx.D i j := by
      show (if i.val = N - 1 then _ else ctx.D i j) = _
      rw [if_neg hlast]
    rw [hfun, htgt]
    simpa using
      (hasDerivAt_affineDot 0 (fun m => ctx.D i m) p j).sub_const _

/-- Derivative of the force-balance residual in a pressure coordinate:
the `J_lp` row. -/
theorem hasDerivAt_resF_l_col_p {N : ℕ} (ctx : Ctx N ℝ) (u p : Fin N → ℝ)
    (lz : ℝ) (told : Fin N → ℝ) (lzold : ℝ) (j : Fin N) :
    HasDerivAt
      (fun t => (resState ctx u (Function.update p j t) lz told lzold).F_l)
      ((jacState ctx u p lz told lzold).J_lp j) (p j) := by
  have hfun :
      (fun t => (resState ctx u (Function.update p j t) lz told lzold).F_l)
        = fun t => 2 * ctx.piv *
            (∑ m, ctx.w m * (ctx.Sz lz
              - lam_r_of ctx u m * lam_t_of ctx u m * Function.update p j t m)
              * ctx.r m) - ctx.Fphys := rfl
  have htgt : (jacState ctx u p lz told lzold).J_lp j
      = -2 * ctx.piv * ctx.w j * lam_r_of ctx u j * lam_t_of ctx u j
        * ctx.r j := rfl
  rw [hfun, htgt]
  have hsum : HasDerivAt
      (fun t => ∑ m, ctx.w m * (ctx.Sz lz
        - lam_r_of ctx u m * lam_t_of ctx u m * Function.update p j t m)
        * ctx.r m)
      (∑ m, ctx.w m * (-(lam_r_of ctx u m * lam_t_of ctx u m
        * (if m = j then 1 else 0))) * ctx.r m) (p j) := by
    refine HasDerivAt.sum fun m _ => ?_
    exact ((((hasDerivAt_update_coord p j m).const_mul
      (lam_r_of ctx u m * lam_t_of ctx u m)).const_sub
        (ctx.Sz lz)).const_mul (ctx.w m)).mul_const (ctx.r m)
  have h := (hsum.const_mul (2 * ctx.piv)).sub_const ctx.Fphys
  convert h using 1
  have hcollapse : (∑ m, ctx.w m * (-(lam_r_of ctx u m * lam_t_of ctx u m
      * if m = j then (1 : ℝ) else 0)) * ctx.r m)
      = ctx.w j * (-(lam_r_of ctx u j * lam_t_of ctx u j)) * ctx.r j := by
    rw [Finset.sum_eq_single j]
    · simp
    · intro m _ hm
      simp [hm]
    · intro hj
      exact absurd (Finset.mem_univ j) hj
  rw [hcollapse]
  ring

/-- Derivative of the force-balance residual in the axial stretch: the
`J_ll` entry. -/
theorem hasDerivAt_resF_l_col_l {N : ℕ} (ctx : Ctx N ℝ) (u p : Fin N → ℝ)
    (lz : ℝ) (told : Fin N → ℝ) (lzold : ℝ)
    (hSz : ∀ x, HasDerivAt ctx.Sz (ctx.Sz_z x) x) :
    HasDerivAt
      (fun t => (resState ctx u p t told lzold).F_l)
      ((jacState ctx u p lz told lzold).J_ll) lz := by
  have hfun : (fun t => (resState ctx u p t told lzold).F_l)
      = fun t => 2 * ctx.piv *
          (∑ m, ctx.w m * (ctx.Sz t
            - lam_r_of ctx u m * lam_t_of ctx u m * p m) * ctx.r m)
          - ctx.Fphys := rfl
  have htgt : (jacState ctx u p lz told lzold).J_ll
      = 2 * ctx.piv * ∑ m : Fin N, ctx.w m * ctx.Sz_z lz * ctx.r m := rfl
  rw [hfun, htgt]
  refine HasDerivAt.sub_const ?_ _
  refine HasDerivAt.const_mul _ ?_
  refine HasDerivAt.sum fun m _ => ?_
  exact (((hSz lz).sub_const _).const_mul (ctx.w m)).mul_const (ctx.r m)

/-- Product of two diagonal matrices is diagonal. -/
theorem matMul_diagM_diagM {N : ℕ} {K : Type} [Field K]
    (a b : Fin N → K) :
    matMul (diagM a) (diagM b) = diagM (fun x => a x * b x) := by
  funext i j
  rw [matMul_diagM_left]
  unfold diagM
  by_cases h : i = j
  · simp [h]
  · simp [h]

/-- Derivative of the force-balance residual in a displacement
coordinate: the `J_lu` row. -/
theorem hasDerivAt_resF_l_col_u {N : ℕ} (ctx : Ctx N ℝ) (u p : Fin N → ℝ)
    (lz : ℝ) (told : Fin N → ℝ) (lzold : ℝ) (j : Fin N) :
    HasDerivAt
      (fun t => (resState ctx (Function.update u j t) p lz told lzold).F_l)
      ((jacState ctx u p lz told lzold).J_lu j) (u j) := by
  have hfun :
      (fun t => (resState ctx (Function.update u j t) p lz told lzold).F_l)
        = fun t => 2 * ctx.piv *
            (∑ m, ctx.w m * (ctx.Sz lz
              - lam_r_of ctx (Function.update u j t) m
                * lam_t_of ctx (Function.update u j t) m * p m)
              * ctx.r m) - ctx.Fphys := rfl
  have htgt : (jacState ctx u p lz told lzold).J_lu j
      = -2 * ctx.piv * ∑ m, ctx.w m *
          (matMul (diagM fun a => lam_t_of ctx u a * p a * ctx.r a)
            ctx.lam_r_u m j
           + matMul (diagM fun a => lam_r_of ctx u a * p a * ctx.r a)
            ctx.lam_t_u m j) := rfl
  rw [hfun, htgt]
  have hsum : HasDerivAt
      (fun t => ∑ m, ctx.w m * (ctx.Sz lz
        - lam_r_of ctx (Function.update u j t) m
          * lam_t_of ctx (Function.update u j t) m * p m) * ctx.r m)
      (∑ m, ctx.w m * (-((ctx.lam_r_u m j * lam_t_of ctx u m
        + lam_r_of ctx u m * ctx.lam_t_u m j) * p m)) * ctx.r m) (u j) := by
    refine HasDerivAt.sum fun m _ => ?_
    have hprod : HasDerivAt
        (fun t => lam_r_of ctx (Function.update u j t) m
          * lam_t_of ctx (Function.update u j t) m)
        (ctx.lam_r_u m j * lam_t_of ctx u m
          + lam_r_of ctx u m * ctx.lam_t_u m j) (u j) := by
      have h := (hasDerivAt_lam_r_update ctx u j m).mul
        (hasDerivAt_lam_t_update ctx u j m)
      simpa [Function.update_eq_self] using h
    exact (((hprod.mul_const (p m)).const_sub (ctx.Sz lz)).const_mul
      (ctx.w m)).mul_const (ctx.r m)
  have h := (hsum.const_mul (2 * ctx.piv)).sub_const ctx.Fphys
  convert h using 1
  simp only [matMul_diagM_left]
  have hs : (∑ m, ctx.w m * (-((ctx.lam_r_u m j * lam_t_of ctx u m
      + lam_r_of ctx u m * ctx.lam_t_u m j) * p m)) * ctx.r m)
      = -∑ m, ctx.w m *
          (lam_t_of ctx u m * p m * ctx.r m * ctx.lam_r_u m j
           + lam_r_of ctx u m * p m * ctx.r m * ctx.lam_t_u m j) := by
    rw [← Finset.sum_neg_distrib]
    exact Finset.sum_congr rfl fun m _ => by ring
  rw [hs]
  ring

/-- Derivative of the volumetric Jacobian in the axial stretch: the
`J_l` vector maintained by the base context. -/
theorem hasDerivAt_J_col_l {N : ℕ} (ctx : Ctx N ℝ) (u : Fin N → ℝ)
    (lz : ℝ) (i : Fin N) :
    HasDerivAt (fun t => J_of ctx u t i)
      (lam_r_of ctx u i * lam_t_of ctx u i) lz := by
  simpa using (hasDerivAt_id lz).const_mul
    (lam_r_of ctx u i * lam_t_of ctx u i)

/-- Derivative of the pressure residual in the axial stretch: the `J_pl`
column. -/
theorem hasDerivAt_resF_p_col_l {N : ℕ} (ctx : Ctx N ℝ) (u p : Fin N → ℝ)
    (lz : ℝ) (told : Fin N → ℝ) (lzold : ℝ) (i : Fin N)
    (hkf : ∀ x, HasDerivAt ctx.kf (ctx.kJ x) x) (hdt : ctx.dt ≠ 0)
    (hkn : ctx.kf (J_of ctx u lz i) ≠ 0) (hJn : J_of ctx u lz i ≠ 0) :
    HasDerivAt
      (fun t => (resState ctx u p t told lzold).F_p i)
      ((jacState ctx u p lz told lzold).J_pl i) lz := by
  by_cases hlast : i.val = N - 1
  · have hfun : (fun t => (resState ctx u p t told lzold).F_p i)
        = fun _ => p i := by
      funext t
      show (if i.val = N - 1 then _ else _) = _
      rw [if_pos hlast]
      rfl
    have htgt : (jacState ctx u p lz told lzold).J_pl i = 0 := by
      show (if i.val = N - 1 then _ else _) = (0 : ℝ)
      rw [if_pos hlast]
      rfl
    rw [hfun, htgt]
    exact hasDerivAt_const lz (p i)
  · have hfun : (fun t => (resState ctx u p t told lzold).F_p i)
        = fun t => (∑ m, ctx.D i m * p m) -
            ctx.r i * (lam_r_of ctx u i) ^ 2 / 2 / ctx.kf (J_of ctx u t i)
              / J_of ctx u t i *
              (1 / ctx.dt * ((lam_t_of ctx u i) ^ 2 * t
                - (told i) ^ 2 * lzold)) := by
      funext t
      show (if i.val = N - 1 then _ else _) = _
      rw [if_neg hlast]
      rfl
    have htgt : (jacState ctx u p lz told lzold).J_pl i
        = -(-(ctx.r i) * (lam_r_of ctx u i) ^ 2 * ctx.kJ (J_of ctx u lz i)
              * (lam_r_of ctx u i * lam_t_of ctx u i) / 2
              / (ctx.kf (J_of ctx u lz i)) ^ 2 / J_of ctx u lz i *
              (1 / ctx.dt * ((lam_t_of ctx u i) ^ 2 * lz
                - (told i) ^ 2 * lzold))
            - ctx.r i * (lam_r_of ctx u i) ^ 2
              * (lam_r_of ctx u i * lam_t_of ctx u i) / 2
              / ctx.kf (J_of ctx u lz i) / (J_of ctx u lz i) ^ 2 *
              (1 / ctx.dt * ((lam_t_of ctx u i) ^ 2 * lz
                - (told i) ^ 2 * lzold))
            + ctx.r i * (lam_r_of ctx u i) ^ 2 / 2
              / ctx.kf (J_of ctx u lz i) / J_of ctx u lz i / ctx.dt
              * (lam_t_of ctx u i) ^ 2) := by
      show (if i.val = N - 1 then _ else _) = _
      rw [if_neg hlast]
      rfl
    rw [hfun, htgt]
    have hJl := hasDerivAt_J_col_l ctx u lz i
    have hkl := HasDerivAt.comp_of_eq lz (hkf (J_of ctx u lz i)) hJl rfl
    rw [Function.comp_def] at hkl
    have hdL : HasDerivAt
        (fun t => 1 / ctx.dt * ((lam_t_of ctx u i) ^ 2 * t
          - (told i) ^ 2 * lzold))
        (1 / ctx.dt * (lam_t_of ctx u i) ^ 2) lz := by
      simpa using (((hasDerivAt_id lz).const_mul
        ((lam_t_of ctx u i) ^ 2)).sub_const
        ((told i) ^ 2 * lzold)).const_mul (1 / ctx.dt)
    have hbig := ((((hasDerivAt_const lz
        (ctx.r i * (lam_r_of ctx u i) ^ 2 / 2)).div hkl hkn).div hJl
        hJn).mul hdL)
    have h := (hasDerivAt_const lz (∑ m, ctx.D i m * p m)).sub hbig
    convert h using 1
    field_simp [hkn, hJn, hdt]
    ring

/-- Derivative of the displacement residual in the axial stretch: the
`J_ul` column, including both overwritten boundary rows and the
preserved centre row. -/
theorem hasDerivAt_resF_u_col_l {N : ℕ} (ctx : Ctx N ℝ) (u p : Fin N → ℝ)
    (lz : ℝ) (told : Fin N → ℝ) (lzold : ℝ) (i : Fin N)
    (hkf : ∀ x, HasDerivAt ctx.kf (ctx.kJ x) x) :
    HasDerivAt
      (fun t => (resState ctx u p t told lzold).F_u i)
      ((jacState ctx u p lz told lzold).J_ul i) lz := by
  by_cases hlast : i.val = N - 1
  · have hfun : (fun t => (resState ctx u p t told lzold).F_u i)
        = fun _ => ctx.Sr (lam_r_of ctx u i) (lam_t_of ctx u i) := by
      funext t
      show (if i.val = N - 1 then _ else _) = _
      rw [if_pos hlast]
      rfl
    have htgt : (jacState ctx u p lz told lzold).J_ul i = 0 := by
      show (if i.val = N - 1 then _ else _) = (0 : ℝ)
      rw [if_pos hlast]
    rw [hfun, htgt]
    exact hasDerivAt_const lz _
  · by_cases h0 : i.val = 0
    · have hfun : (fun t => (resState ctx u p t told lzold).F_u i)
          = fun _ => u i := by
        funext t
        show (if i.val = N - 1 then _ else if i.val = 0 then _ else _) = _
        rw [if_neg hlast, if_pos h0]
        rfl
      have htgt : (jacState ctx u p lz told lzold).J_ul i = 0 := by
        show (if i.val = N - 1 then _ else if i.val = 0 then _ else _)
          = (0 : ℝ)
        rw [if_neg hlast, if_pos h0]
        rfl
      rw [hfun, htgt]
      exact hasDerivAt_const lz (u i)
    · have hfun : (fun t => (resState ctx u p t told lzold).F_u i)
          = fun t => ctx.r i / 2 *
              (1 / ctx.dt * ((lam_t_of ctx u i) ^ 2 * t
                - (told i) ^ 2 * lzold))
            - ctx.kf (J_of ctx u t i) / lam_r_of ctx u i *
              ((∑ m, ctx.D i m * ctx.Sr (lam_r_of ctx u m) (lam_t_of ctx u m))
                + (ctx.Sr (lam_r_of ctx u i) (lam_t_of ctx u i)
                  - ctx.St (lam_r_of ctx u i) (lam_t_of ctx u i)) / ctx.r i) := by
        funext t
        show (if i.val = N - 1 then _ else if i.val = 0 then _ else _) = _
        rw [if_neg hlast, if_neg h0]
        rfl
      have htgt : (jacState ctx u p lz told lzold).J_ul i
          = ctx.r i / 2 / ctx.dt * (lam_t_of ctx u i) ^ 2
            - ctx.kJ (J_of ctx u lz i)
              * (lam_r_of ctx u i * lam_t_of ctx u i) / lam_r_of ctx u i *
              ((∑ m, ctx.D i m * ctx.Sr (lam_r_of ctx u m) (lam_t_of ctx u m))
                + (ctx.Sr (lam_r_of ctx u i) (lam_t_of ctx u i)
                  - ctx.St (lam_r_of ctx u i) (lam_t_of ctx u i)) / ctx.r i)
            - ctx.kf (J_of ctx u lz i) / lam_r_of ctx u i *
              ((∑ m, ctx.D i m * (0 : ℝ)) + ((0 : ℝ) - (0 : ℝ)) / ctx.r i) := by
        show (if i.val = N - 1 then _ else if i.val = 0 then _ else _) = _
        rw [if_neg hlast, if_neg h0]
        rfl
      rw [hfun, htgt]
      have hJl := hasDerivAt_J_col_l ctx u lz i
      have hkl := HasDerivAt.comp_of_eq lz (hkf (J_of ctx u lz i)) hJl rfl
      rw [Function.comp_def] at hkl
      have hdL : HasDerivAt
          (fun t => 1 / ctx.dt * ((lam_t_of ctx u i) ^ 2 * t
            - (told i) ^ 2 * lzold))
          (1 / ctx.dt * (lam_t_of ctx u i) ^ 2) lz := by
        simpa using (((hasDerivAt_id lz).const_mul
          ((lam_t_of ctx u i) ^ 2)).sub_const
          ((told i) ^ 2 * lzold)).const_mul (1 / ctx.dt)
      have h := (hdL.const_mul (ctx.r i / 2)).sub
        (((hkl.div_const (lam_r_of ctx u i)).mul_const
          ((∑ m, ctx.D i m * ctx.Sr (lam_r_of ctx u m) (lam_t_of ctx u m))
            + (ctx.Sr (lam_r_of ctx u i) (lam_t_of ctx u i)
              - ctx.St (lam_r_of ctx u i) (lam_t_of ctx u i)) / ctx.r i)))
      convert h using 1
      simp only [Finset.sum_const_zero, mul_zero, sub_zero, zero_div,
        add_zero, zero_add, sub_self]
      ring

/-- Derivative of the pressure residual in a displacement coordinate:
the `J_pu` block. -/
theorem hasDerivAt_resF_p_col_u {N : ℕ} (ctx : Ctx N ℝ) (u p : Fin N → ℝ)
    (lz : ℝ) (told : Fin N → ℝ) (lzold : ℝ) (i j : Fin N)
    (hkf : ∀ x, HasDerivAt ctx.kf (ctx.kJ x) x) (hdt : ctx.dt ≠ 0)
    (hkn : ctx.kf (J_of ctx u lz i) ≠ 0) (hJn : J_of ctx u lz i ≠ 0) :
    HasDerivAt
      (fun t => (resState ctx (Function.update u j t) p lz told lzold).F_p i)
      ((jacState ctx u p lz told lzold).J_pu i j) (u j) := by
  by_cases hlast : i.val = N - 1
  · have hfun :
        (fun t => (resState ctx (Function.update u j t) p lz told lzold).F_p i)
          = fun _ => p i := by
      funext t
      show (if i.val = N - 1 then _ else _) = _
      rw [if_pos hlast]
      rfl
    have htgt : (jacState ctx u p lz told lzold).J_pu i j = 0 := by
      show (if i.val = N - 1 then _ else _) = (0 : ℝ)
      rw [if_pos hlast]
      rfl
    rw [hfun, htgt]
    exact hasDerivAt_const (u j) (p i)
  · have hfun :
        (fun t => (resState ctx (Function.update u j t) p lz told lzold).F_p i)
          = fun t => (∑ m, ctx.D i m * p m) -
              ctx.r i * (lam_r_of ctx (Function.update u j t) i) ^ 2 / 2
                / ctx.kf (J_of ctx (Function.update u j t) lz i)
                / J_of ctx (Function.update u j t) lz i *
                (1 / ctx.dt *
                  ((lam_t_of ctx (Function.update u j t) i) ^ 2 * lz
                    - (told i) ^ 2 * lzold)) := by
      funext t
      show (if i.val = N - 1 then _ else _) = _
      rw [if_neg hlast]
      rfl
    have htgt : (jacState ctx u p lz told lzold).J_pu i j
        = -(matMul (diagM fun a => ctx.r a * lam_r_of ctx u a *
              (1 / ctx.dt * ((lam_t_of ctx u a) ^ 2 * lz
                - (told a) ^ 2 * lzold))
              / ctx.kf (J_of ctx u lz a) / J_of ctx u lz a) ctx.lam_r_u i j
          - matMul (diagM fun a => ctx.r a * (lam_r_of ctx u a) ^ 2
              * ctx.kJ (J_of ctx u lz a)
              * (1 / ctx.dt * ((lam_t_of ctx u a) ^ 2 * lz
                - (told a) ^ 2 * lzold)) / 2
              / (ctx.kf (J_of ctx u lz a)) ^ 2 / J_of ctx u lz a)
              (fun a b => lam_t_of ctx u a * lz * ctx.lam_r_u a b
                + lam_r_of ctx u a * lz * ctx.lam_t_u a b) i j
          - matMul (diagM fun a => ctx.r a * (lam_r_of ctx u a) ^ 2
              * (1 / ctx.dt * ((lam_t_of ctx u a) ^ 2 * lz
                - (told a) ^ 2 * lzold)) / 2
              / ctx.kf (J_of ctx u lz a) / (J_of ctx u lz a) ^ 2)
              (fun a b => lam_t_of ctx u a * lz * ctx.lam_r_u a b
                + lam_r_of ctx u a * lz * ctx.lam_t_u a b) i j
          + matMul (diagM fun a => ctx.r a * (lam_r_of ctx u a) ^ 2
              * lam_t_of ctx u a * lz / ctx.kf (J_of ctx u lz a)
              / J_of ctx u lz a / ctx.dt) ctx.lam_t_u i j) := by
      show (if i.val = N - 1 then _ else _) = _
      rw [if_neg hlast]
      rfl
    rw [hfun, htgt]
    have hkn2 : ctx.kf (J_of ctx (Function.update u j (u j)) lz i) ≠ 0 := by
      rw [Function.update_eq_self]
      exact hkn
    have hJn2 : J_of ctx (Function.update u j (u j)) lz i ≠ 0 := by
      rw [Function.update_eq_self]
      exact hJn
    have hbig := (((((hasDerivAt_lam_r_update ctx u j i).pow 2).const_mul
      (ctx.r i)).div_const 2).div
        (hasDerivAt_k_update ctx u lz j i hkf) hkn2).div
        (hasDerivAt_J_update ctx u lz j i) hJn2 |>.mul
        (hasDerivAt_dLdt_update ctx u lz told lzold j i)
    have h := (hasDerivAt_const (u j) (∑ m, ctx.D i m * p m)).sub hbig
    convert h using 1
    simp only [matMul_diagM_left, Function.update_eq_self, Nat.cast_ofNat,
      pow_one]
    field_simp [hkn, hJn, hdt]
    ring

set_option maxHeartbeats 1000000 in
/-- Derivative of the displacement residual in a displacement
coordinate: the `J_uu` block, covering the preserved centre row, the
overwritten interior rows and the boundary-condition row. -/
theorem hasDerivAt_resF_u_col_u {N : ℕ} (ctx : Ctx N ℝ) (u p : Fin N → ℝ)
    (lz : ℝ) (told : Fin N → ℝ) (lzold : ℝ) (i j : Fin N)
    (hkf : ∀ x, HasDerivAt ctx.kf (ctx.kJ x) x)
    (hSr : HasPartials2 ctx.Sr ctx.Sr_r ctx.Sr_t)
    (hSt : HasPartials2 ctx.St ctx.St_r ctx.St_t)
    (hlr : lam_r_of ctx u i ≠ 0) :
    HasDerivAt
      (fun t => (resState ctx (Function.update u j t) p lz told lzold).F_u i)
      ((jacState ctx u p lz told lzold).J_uu i j) (u j) := by
  by_cases hlast : i.val = N - 1
  · have hfun :
        (fun t => (resState ctx (Function.update u j t) p lz told lzold).F_u i)
          = fun t => ctx.Sr (lam_r_of ctx (Function.update u j t) i)
              (lam_t_of ctx (Function.update u j t) i) := by
      funext t
      show (if i.val = N - 1 then _ else _) = _
      rw [if_pos hlast]
      rfl
    have htgt : (jacState ctx u p lz told lzold).J_uu i j
        = matMul (diagM fun a => ctx.Sr_r (lam_r_of ctx u a)
            (lam_t_of ctx u a)) ctx.lam_r_u i j
          + matMul (diagM fun a => ctx.Sr_t (lam_r_of ctx u a)
            (lam_t_of ctx u a)) ctx.lam_t_u i j := by
      show (if i.val = N - 1 then _ else _) = _
      rw [if_pos hlast]
      rfl
    rw [hfun, htgt]
    have h := hasDerivAt_stress_update ctx hSr u j i
    convert h using 1
    rw [matMul_diagM_left, matMul_diagM_left]
  · by_cases h0 : i.val = 0
    · have hfun :
          (fun t =>
            (resState ctx (Function.update u j t) p lz told lzold).F_u i)
            = fun t => Function.update u j t i := by
        funext t
        show (if i.val = N - 1 then _ else if i.val = 0 then _ else _) = _
        rw [if_neg hlast, if_pos h0]
        rfl
      have htgt : (jacState ctx u p lz told lzold).J_uu i j
          = if j.val = 0 then 1 else 0 := by
        show (if i.val = N - 1 then _ else if i.val = 0 then _ else _) = _
        rw [if_neg hlast, if_pos h0]
        show (if i.val = 0 then (if j.val = 0 then (1:ℝ) else 0) else 0) = _
        rw [if_pos h0]
      have hij : (i = j) ↔ (j.val = 0) := by
        constructor
        · intro h; rw [← h]; exact h0
        · intro h; exact Fin.ext (h0.trans h.symm)
      rw [hfun, htgt]
      have h := hasDerivAt_update_coord u j i
      by_cases hj : i = j
      · rw [if_pos hj] at h
        rw [if_pos (hij.mp hj)]
        exact h
      · rw [if_neg hj] at h
        rw [if_neg (fun hc => hj (hij.mpr hc))]
        exact h
    · have hfun :
          (fun t =>
            (resState ctx (Function.update u j t) p lz told lzold).F_u i)
            = fun t => ctx.r i / 2 *
                (1 / ctx.dt *
                  ((lam_t_of ctx (Function.update u j t) i) ^ 2 * lz
                    - (told i) ^ 2 * lzold))
              - ctx.kf (J_of ctx (Function.update u j t) lz i)
                  / lam_r_of ctx (Function.update u j t) i *
                ((∑ m, ctx.D i m *
                    ctx.Sr (lam_r_of ctx (Function.update u j t) m)
                      (lam_t_of ctx (Function.update u j t) m))
                  + (ctx.Sr (lam_r_of ctx (Function.update u j t) i)
                      (lam_t_of ctx (Function.update u j t) i)
                    - ctx.St (lam_r_of ctx (Function.update u j t) i)
                      (lam_t_of ctx (Function.update u j t) i)) / ctx.r i) := by
        funext t
        show (if i.val = N - 1 then _ else if i.val = 0 then _ else _) = _
        rw [if_neg hlast, if_neg h0]
        rfl
      have htgt : (jacState ctx u p lz told lzold).J_uu i j
          = matMul (matMul (diagM fun a => lz * ctx.r a / ctx.dt)
              (diagM (fun a => lam_t_of ctx u a))) ctx.lam_t_u i j
            - ((∑ m, ctx.D i m * ctx.Sr (lam_r_of ctx u m) (lam_t_of ctx u m))
                + (ctx.Sr (lam_r_of ctx u i) (lam_t_of ctx u i)
                  - ctx.St (lam_r_of ctx u i) (lam_t_of ctx u i)) / ctx.r i) *
              (matMul (diagM fun a => ctx.kJ (J_of ctx u lz a)
                  / lam_r_of ctx u a)
                (fun a b => lam_t_of ctx u a * lz * ctx.lam_r_u a b
                  + lam_r_of ctx u a * lz * ctx.lam_t_u a b) i j
               - matMul (diagM fun a => ctx.kf (J_of ctx u lz a)
                  / (lam_r_of ctx u a) ^ 2) ctx.lam_r_u i j)
            - ctx.kf (J_of ctx u lz i) / lam_r_of ctx u i *
              (matMul ctx.D
                (fun a b =>
                  matMul (diagM fun c => ctx.Sr_r (lam_r_of ctx u c)
                    (lam_t_of ctx u c)) ctx.lam_r_u a b
                  + matMul (diagM fun c => ctx.Sr_t (lam_r_of ctx u c)
                    (lam_t_of ctx u c)) ctx.lam_t_u a b) i j
               + (matMul (diagM fun c => ctx.Sr_r (lam_r_of ctx u c)
                    (lam_t_of ctx u c)) ctx.lam_r_u i j
                  + matMul (diagM fun c => ctx.Sr_t (lam_r_of ctx u c)
                    (lam_t_of ctx u c)) ctx.lam_t_u i j
                  - matMul (diagM fun c => ctx.St_r (lam_r_of ctx u c)
                    (lam_t_of ctx u c)) ctx.lam_r_u i j
                  - matMul (diagM fun c => ctx.St_t (lam_r_of ctx u c)
                    (lam_t_of ctx u c)) ctx.lam_t_u i j) / ctx.r i) := by
        show (if i.val = N - 1 then _ else if i.val = 0 then _ else _) = _
        rw [if_neg hlast, if_neg h0]
        rfl
      rw [hfun, htgt]
      have hlr2 : lam_r_of ctx (Function.update u j (u j)) i ≠ 0 := by
        rw [Function.update_eq_self]
        exact hlr
      have hT1 := (hasDerivAt_dLdt_update ctx u lz told lzold j i).const_mul
        (ctx.r i / 2)
      have hquot := (hasDerivAt_k_update ctx u lz j i hkf).div
        (hasDerivAt_lam_r_update ctx u j i) hlr2
      have hsumS := HasDerivAt.sum fun m (_ : m ∈ Finset.univ) =>
        (hasDerivAt_stress_update ctx hSr u j m).const_mul (ctx.D i m)
      have hbc := ((hasDerivAt_stress_update ctx hSr u j i).sub
        (hasDerivAt_stress_update ctx hSt u j i)).div_const (ctx.r i)
      have hdivS := hsumS.add hbc
      have h := hT1.sub (hquot.mul hdivS)
      convert h using 1
      simp only [matMul_diagM_diagM, matMul_diagM_left, Function.update_eq_self]
      simp only [matMul]
      field_simp [hlr]
      ring

/-- C1: at every state satisfying the grid/operator preconditions
(`r[0] = 0`, `r[-1] = 1`, `dt ≠ 0`, nonzero permeability, volumetric
Jacobian and radial stretch) and with differentiable constitutive and
permeability closures, the matrix assembled by `build_jacobian` (called
after `build_residual` at the same state) is the exact partial derivative
of the residual assembled by `build_residual` with respect to the
unknown vector `X = [u; p; lam_z]`, block by block for all nine
blocks. -/
theorem C1_jacobian_exact {N : ℕ} (ctx : Ctx N ℝ) (u p : Fin N → ℝ)
    (lz : ℝ) (told : Fin N → ℝ) (lzold : ℝ)
    (hr0 : ∀ i : Fin N, i.val = 0 → ctx.r i = 0)
    (hr1 : ∀ i : Fin N, i.val = N - 1 → ctx.r i = 1)
    (hdt : ctx.dt ≠ 0)
    (hkf : ∀ x, HasDerivAt ctx.kf (ctx.kJ x) x)
    (hSr : HasPartials2 ctx.Sr ctx.Sr_r ctx.Sr_t)
    (hSt : HasPartials2 ctx.St ctx.St_r ctx.St_t)
    (hSz : ∀ x, HasDerivAt ctx.Sz (ctx.Sz_z x) x)
    (hlr : ∀ i, lam_r_of ctx u i ≠ 0)
    (hkn : ∀ i, ctx.kf (J_of ctx u lz i) ≠ 0)
    (hJn : ∀ i, J_of ctx u lz i ≠ 0) :
    (∀ i j, HasDerivAt
      (fun t => (resState ctx (Function.update u j t) p lz told lzold).F_u i)
      ((jacState ctx u p lz told lzold).J_uu i j) (u j)) ∧
    (∀ i j, HasDerivAt
      (fun t => (resState ctx u (Function.update p j t) lz told lzold).F_u i)
      ((jacState ctx u p lz told lzold).J_up i j) (p j)) ∧
    (∀ i, HasDerivAt
      (fun t => (resState ctx u p t told lzold).F_u i)
      ((jacState ctx u p lz told lzold).J_ul i) lz) ∧
    (∀ i j, HasDerivAt
      (fun t => (resState ctx (Function.update u j t) p lz told lzold).F_p i)
      ((jacState ctx u p lz told lzold).J_pu i j) (u j)) ∧
    (∀ i j, HasDerivAt
      (fun t => (resState ctx u (Function.update p j t) lz told lzold).F_p i)
      ((jacState ctx u p lz told lzold).J_pp i j) (p j)) ∧
    (∀ i, HasDerivAt
      (fun t => (resState ctx u p t told lzold).F_p i)
      ((jacState ctx u p lz told lzold).J_pl i) lz) ∧
    (∀ j, HasDerivAt
      (fun t => (resState ctx (Function.update u j t) p lz told lzold).F_l)
      ((jacState ctx u p lz told lzold).J_lu j) (u j)) ∧
    (∀ j, HasDerivAt
      (fun t => (resState ctx u (Function.update p j t) lz told lzold).F_l)
      ((jacState ctx u p lz told lzold).J_lp j) (p j)) ∧
    HasDerivAt
      (fun t => (resState ctx u p t told lzold).F_l)
      ((jacState ctx u p lz told lzold).J_ll) lz :=
  ⟨fun i j => hasDerivAt_resF_u_col_u ctx u p lz told lzold i j hkf hSr hSt
      (hlr i),
   fun i j => hasDerivAt_resF_u_col_p ctx u p lz told lzold i j,
   fun i => hasDerivAt_resF_u_col_l ctx u p lz told lzold i hkf,
   fun i j => hasDerivAt_resF_p_col_u ctx u p lz told lzold i j hkf hdt
      (hkn i) (hJn i),
   fun i j => hasDerivAt_resF_p_col_p ctx u p lz told lzold i j,
   fun i => hasDerivAt_resF_p_col_l ctx u p lz told lzold i hkf hdt
      (hkn i) (hJn i),
   fun j => hasDerivAt_resF_l_col_u ctx u p lz told lzold j,
   fun j => hasDerivAt_resF_l_col_p ctx u p lz told lzold j,
   hasDerivAt_resF_l_col_l ctx u p lz told lzold hSz⟩

/-- Witness for C1 at a concrete real context and state: the axial
self-derivative block. -/
theorem C1_jacobian_exact_witness :
    HasDerivAt
      (fun t => (resState testCtxR (fun _ => 0) (fun _ => 0) t
        (fun _ => 1) 1).F_l)
      ((jacState testCtxR (fun _ => 0) (fun _ => 0) 1
        (fun _ => 1) 1).J_ll) 1 :=
  (C1_jacobian_exact testCtxR (fun _ => 0) (fun _ => 0) 1 (fun _ => 1) 1
    (by intro i hi; fin_cases i <;> simp_all [testCtxR])
    (by intro i hi; fin_cases i <;> simp_all [testCtxR])
    (by norm_num [testCtxR])
    (fun x => by simpa [testCtxR] using (hasDerivAt_id x).add_const (1 : ℝ))
    (fun a b => by
      have h := (hasFDerivAt_fst (𝕜 := ℝ) (p := ((a, b) : ℝ × ℝ))).mul
        (hasFDerivAt_snd (𝕜 := ℝ) (p := ((a, b) : ℝ × ℝ)))
      simpa [testCtxR, HasPartials2, add_comm] using h)
    (fun a b => by
      have h := (hasFDerivAt_fst (𝕜 := ℝ) (p := ((a, b) : ℝ × ℝ))).add
        (hasFDerivAt_snd (𝕜 := ℝ) (p := ((a, b) : ℝ × ℝ)))
      simpa [testCtxR, HasPartials2, one_smul] using h)
    (fun x => by
      simpa [testCtxR] using (hasDerivAt_id x).mul (hasDerivAt_id x))
    (fun i => by norm_num [testCtxR, lam_r_of])
    (fun i => by norm_num [testCtxR, lam_r_of, lam_t_of, J_of])
    (fun i => by norm_num [testCtxR, lam_r_of, lam_t_of, J_of])).2.2.2.2.2.2.2.2

end UComp
